import Mathlib

/-!
# Verification of the `youtube_whisper_text.py` pipeline

A shallow embedding of `src/youtube_whisper_text.py`: a four-stage
YouTube → MP4 → WAV → text pipeline (download with yt-dlp, remux with
ffmpeg, extract mono 16 kHz audio, transcribe with whisper) driven by a
Tk GUI.

External processes (`subprocess.Popen` runs of yt-dlp / ffmpeg /
whisper) are modelled by an oracle mapping an argument vector to the
process result: its merged stdout+stderr lines, its exit code, and the
set of files it created.  The filesystem is the list of paths of
existing files; every tool invocation extends it by the files the tool
created, and `os.remove` deletes a path.  Directory listings observed
by the two fallback scans (`os.listdir(video_dir)` at line 146 and
`os.listdir(workdir)` at line 421 of the source) are further oracle
data, since they are read at one specific moment.
-/

namespace YWT

/-- Filesystem model: the list of paths of the files that exist. -/
abbrev FS := List String

/-- `os.path.isfile`: the path names an existing file. -/
def isFile (fs : FS) (p : String) : Bool := fs.contains p

/-- `os.path.join dir name` for a directory without a trailing
separator and a relative second component (the only way the program
uses it). -/
def pathJoin (a b : String) : String := a ++ "/" ++ b

/-- The ASCII whitespace characters removed by Python `str.strip()`. -/
def isPySpace (c : Char) : Bool :=
  c = ' ' || c = '\t' || c = '\n' || c = '\r' || c = '\x0b' || c = '\x0c'

/-- Python `str.strip()`. -/
def pyStrip (s : String) : String :=
  ⟨((s.data.dropWhile isPySpace).reverse.dropWhile isPySpace).reverse⟩

/-- Python `str.startswith`. -/
def pyStartsWith (s pre : String) : Bool := List.isPrefixOf pre.data s.data

/-- Python `str.endswith`. -/
def pyEndsWith (s suf : String) : Bool := List.isSuffixOf suf.data s.data

/-- Python `str.lower()` (ASCII case folding, which is all the program
compares). -/
def pyLower (s : String) : String := ⟨s.data.map Char.toLower⟩

/-- `os.path.basename`: the part after the last `/`. -/
def basename (s : String) : String :=
  ⟨(s.data.reverse.takeWhile (fun c => c ≠ '/')).reverse⟩

/-- `os.path.splitext(s)[0]`: drop the last dot-extension; dots leading
the name never start an extension (CPython semantics). -/
def stem (s : String) : String :=
  let k := (s.data.takeWhile (fun c => c = '.')).length
  let rest := s.data.drop k
  let t := rest.reverse.takeWhile (fun c => c ≠ '.')
  if t.length = rest.length then s
  else ⟨s.data.take (k + (rest.length - t.length - 1))⟩

/-- Characters `shlex.quote` keeps unquoted: word characters plus
`@ % + = : , .` and the slash and dash (ASCII part). -/
def shlexSafe (c : Char) : Bool :=
  c.isAlphanum || c = '_' || c = '@' || c = '%' || c = '+' || c = '=' ||
  c = ':' || c = ',' || c = '.' || c = '/' || c = '-'

/-- The single-quote character. -/
def squote : Char := Char.ofNat 39

/-- `shlex.quote`. -/
def shlexQuote (s : String) : String :=
  if s = "" then ⟨[squote, squote]⟩
  else if s.data.all shlexSafe then s
  else ⟨[squote] ++
    (s.data.flatMap (fun c =>
      if c = squote then [squote, '"', squote, '"', squote] else [c])) ++
    [squote]⟩

/-- `_pretty_cmd` applied to an argument-vector command (the only kind
the program builds). -/
def pretty_cmd (cmd : List String) : String :=
  String.intercalate " " (cmd.map shlexQuote)

/-- Result of one external process run: merged stdout+stderr lines
(newline-stripped, as collected by the `for line in p.stdout` loop),
the exit code from `p.wait()`, and the files the process created. -/
structure ProcResult where
  lines : List String
  rc : Int
  created : List String
deriving Repr, DecidableEq

/-- Oracle for `subprocess.Popen`: what each command does when run. -/
abbrev Exec := List String → ProcResult

/-- Message of the `RuntimeError` raised by `run_cmd_stream` on a
non-zero exit status (source line 102). -/
def cmdFailMsg (rc : Int) : String :=
  "Commande échouée (code " ++ toString rc ++ ")."

/-- `run_cmd_stream`: forwards `$ <pretty command>` and then every
output line to the logger, waits, and raises on non-zero exit; on
success it returns the joined output.  First component: the lines
delivered to the Observer; second: the returned value or the raised
error. -/
def run_cmd_stream (cmd : List String) (r : ProcResult) :
    List String × Except String String :=
  (("$ " ++ pretty_cmd cmd) :: r.lines,
   if r.rc ≠ 0 then Except.error (cmdFailMsg r.rc)
   else Except.ok (String.intercalate "\n" r.lines))

/-- `needle` occurs as a contiguous substring of `hay`. -/
def subOccurs (hay needle : List Char) : Bool :=
  match hay with
  | [] => needle.isEmpty
  | _ :: t => List.isPrefixOf needle hay || subOccurs t needle

/-- The engine-availability probe
`[python_exe, "-c", "import whisper; print('OK: whisper importable')"]`
run by `ensure_whisper_available` (source lines 106-110). -/
def ensureWhisperCmd (pythonExe : String) : List String :=
  [pythonExe, "-c", "import whisper; print(\x27OK: whisper importable\x27)"]

/-- The yt-dlp invocation built by `download_youtube` (lines 125-133). -/
def ytdlpCmd (url videoDir baseWithDate : String) : List String :=
  ["yt-dlp", "--no-playlist", "--restrict-filenames", "-f", "bv*+ba/best",
   "-o", pathJoin videoDir (baseWithDate ++ ".%(ext)s"),
   "--print", "after_move:filepath", url]

/-- The primary ffmpeg invocation of `to_mp4`: stream-copy the video,
transcode audio to AAC 192k, fast-start (lines 159-167). -/
def ffCopyCmd (inputVideo mp4Path : String) : List String :=
  ["ffmpeg", "-y", "-i", inputVideo, "-c:v", "copy", "-c:a", "aac",
   "-b:a", "192k", "-movflags", "+faststart", mp4Path]

/-- The fallback ffmpeg invocation of `to_mp4`: re-encode the video
with libx264 `veryfast` at CRF 22, audio as before (lines 175-185). -/
def ffReencCmd (inputVideo mp4Path : String) : List String :=
  ["ffmpeg", "-y", "-i", inputVideo, "-c:v", "libx264", "-preset",
   "veryfast", "-crf", "22", "-c:a", "aac", "-b:a", "192k",
   "-movflags", "+faststart", mp4Path]

/-- The ffmpeg invocation of `mp4_to_wav`: mono, 16 kHz, signed 16-bit
PCM (lines 189-199). -/
def wavCmd (mp4Path wavPath : String) : List String :=
  ["ffmpeg", "-y", "-i", mp4Path, "-vn", "-ac", "1", "-ar", "16000",
   "-c:a", "pcm_s16le", wavPath]

/-- `explain_whisper_command` (lines 202-215): the whisper argument
vector; the `--language` flag is appended only when the language is not
`"auto"`. -/
def explain_whisper_command
    (pythonExe wavPath outDir modelName lang : String) : List String :=
  let cmd := [pythonExe, "-m", "whisper", wavPath,
    "--model", modelName, "--device", "cuda", "--task", "transcribe",
    "--output_dir", outDir, "--output_format", "txt",
    "--verbose", "True"]
  if lang ≠ "auto" then cmd ++ ["--language", lang] else cmd

/-- Message of the `RuntimeError` raised when no downloaded file can be
located (line 152). -/
def dlFailMsg : String :=
  "Téléchargement terminé, mais fichier vidéo introuvable dans /video."

/-- Message raised when the MP4 postcondition fails (line 407). -/
def mp4MissingMsg : String :=
  "Conversion MP4 terminée, mais fichier MP4 introuvable."

/-- Message raised when the WAV postcondition fails (line 412). -/
def wavMissingMsg : String :=
  "Extraction WAV terminée, mais WAV introuvable."

/-- Message raised when no transcription text file is found (441). -/
def txtMissingMsg : String :=
  "Transcription terminée, mais TXT introuvable."

/-- The candidate downloaded path (lines 138-139): the last non-blank
stripped output line, or the empty string when there is none. -/
def dlCand (r : ProcResult) : String :=
  ((r.lines.map pyStrip).filter (fun l => l ≠ "")).getLastD ""

/-- The fallback directory scan of lines 146-150: the first listing
entry whose name starts with the name template (taken literally)
followed by a dot and which names an existing file. -/
def dlScan (videoDir baseWithDate : String) (listing : List String)
    (fs1 : FS) : Option String :=
  listing.find? (fun fn =>
    pyStartsWith fn (baseWithDate ++ ".") &&
    isFile fs1 (pathJoin videoDir fn))

/-- `download_youtube` (lines 113-152): run yt-dlp, take the last
non-blank printed line as the candidate path, fall back to scanning the
destination directory.  Returns the filesystem after the tool ran and
the resolved path or raised error. -/
def download_youtube (exec : Exec) (url videoDir baseWithDate : String)
    (listing : List String) (fs : FS) : FS × Except String String :=
  let c := ytdlpCmd url videoDir baseWithDate
  let r := exec c
  let fs1 := fs ++ r.created
  match (run_cmd_stream c r).2 with
  | Except.error m => (fs1, Except.error m)
  | Except.ok _ =>
    let downloaded := dlCand r
    if downloaded ≠ "" && isFile fs1 downloaded then
      (fs1, Except.ok downloaded)
    else
      match dlScan videoDir baseWithDate listing fs1 with
      | some fn => (fs1, Except.ok (pathJoin videoDir fn))
      | none => (fs1, Except.error dlFailMsg)

/-- `to_mp4` (lines 155-186): try the stream-copy command; if it raises
(non-zero exit), log a warning and run the re-encode command once; a
failure of the second attempt propagates.  Also returns the list of
ffmpeg invocations actually made, in order. -/
def to_mp4 (exec : Exec) (inputVideo mp4Path : String) (fs : FS) :
    FS × List (List String) × Except String Unit :=
  let c1 := ffCopyCmd inputVideo mp4Path
  let r1 := exec c1
  let fs1 := fs ++ r1.created
  match (run_cmd_stream c1 r1).2 with
  | Except.ok _ => (fs1, [c1], Except.ok ())
  | Except.error _ =>
    let c2 := ffReencCmd inputVideo mp4Path
    let r2 := exec c2
    let fs2 := fs1 ++ r2.created
    match (run_cmd_stream c2 r2).2 with
    | Except.ok _ => (fs2, [c1, c2], Except.ok ())
    | Except.error m => (fs2, [c1, c2], Except.error m)

/-- The Normalize stage as the controller runs it: `to_mp4` followed by
the output-exists postcondition check (lines 405-407). -/
def normalize_stage (exec : Exec) (inputVideo mp4Path : String) (fs : FS) :
    FS × List (List String) × Except String Unit :=
  match to_mp4 exec inputVideo mp4Path fs with
  | (fs1, cs, Except.error m) => (fs1, cs, Except.error m)
  | (fs1, cs, Except.ok _) =>
    if isFile fs1 mp4Path then (fs1, cs, Except.ok ())
    else (fs1, cs, Except.error mp4MissingMsg)

/-- Insert into an ascending list. -/
def insertSorted (a : String) : List String → List String
  | [] => [a]
  | b :: t => if a ≤ b then a :: b :: t else b :: insertSorted a t

/-- Python `sorted` on strings: the ascending reordering, lexicographic
by code point (insertion sort; on strings, where equal elements are
identical, every sort returns the same list). -/
def sortStrings : List String → List String
  | [] => []
  | a :: t => insertSorted a (sortStrings t)

/-- The four pipeline stages. -/
inductive Stage
  | fetch
  | normalize
  | extract
  | transcribe
deriving Repr, DecidableEq

/-- Milestone events of one `_pipeline_thread` run.  `start s inp` is
the stage-start banner (`[1/4]` … `[4/4]` log lines) together with the
input artifact the stage is about to read (the URL for Fetch);
`done s a` marks the point where the controller has verified the
stage's output artifact `a` (the return of `download_youtube` for
Fetch, the `os.path.isfile` postcondition for the others);
`cleanup p removed` is the `os.remove(wav_path)` attempt of line 427;
`engineCheck` is the `[0/4]` pre-stage engine probe. -/
inductive Ev
  | engineCheck
  | start (s : Stage) (input : String)
  | done (s : Stage) (artifact : String)
  | cleanup (path : String) (removed : Bool)
deriving Repr, DecidableEq

/-- Terminal outcome of a run. -/
inductive Outcome
  | success (txtPath : String)
  | failure (msg : String)
deriving Repr, DecidableEq

/-- Result of one modelled run: the milestone trace, each event paired
with the filesystem as it stands at that moment, the final filesystem,
and the terminal outcome. -/
structure RunResult where
  trace : List (Ev × FS)
  fs : FS
  outcome : Outcome
deriving Repr, DecidableEq

/-- The external world of one run: the process oracle, the directory
listings the two fallback scans observe, whether `os.remove` succeeds
on an existing WAV, and the request fields read from the UI. -/
structure Env where
  exec : Exec
  listVideoDir : List String
  listWorkdir : List String
  rmWavOk : Bool
  url : String
  modelName : String
  lang : String
  pythonExe : String
  dateTag : String

/-- Lines 419-423: if the expected `<txtDir>/<base>.txt` is absent,
scan the *work* directory for names that lower-case-end in `.txt` and
start with the base, and take the lexicographically first; otherwise
keep the expected path (also when the scan finds nothing). -/
def resolveTxt (wd : String) (e : Env) (base txtPath0 : String)
    (fs4 : FS) : String :=
  if isFile fs4 txtPath0 then txtPath0
  else
    match sortStrings (e.listWorkdir.filter (fun f =>
        pyEndsWith (pyLower f) ".txt" && pyStartsWith f base)) with
    | [] => txtPath0
    | c :: _ => pathJoin wd c

/-- Tail of `_pipeline_thread` after `run_whisper` returned: resolve
the text path (lines 419-423), then best-effort-remove the WAV
(426-430), then the final existence check deciding success (432-441). -/
def finishStage (wd : String) (e : Env) (base wavPath txtPath0 : String)
    (fs4 : FS) : RunResult :=
  let txtPath := resolveTxt wd e base txtPath0 fs4
  let removed := e.rmWavOk && isFile fs4 wavPath
  let fs5 := if removed then fs4.filter (fun p => p ≠ wavPath) else fs4
  if isFile fs5 txtPath then
    ⟨[(Ev.cleanup wavPath removed, fs5),
      (Ev.done Stage.transcribe txtPath, fs5)],
     fs5, Outcome.success txtPath⟩
  else
    ⟨[(Ev.cleanup wavPath removed, fs5)], fs5,
     Outcome.failure txtMissingMsg⟩

/-- The Transcribe stage body: `run_whisper` (lines 218-222, 416) then
`finishStage`. -/
def transcribeStage (wd : String) (e : Env)
    (base wavPath txtPath0 txtDir : String) (fs3 : FS) : RunResult :=
  let c := explain_whisper_command e.pythonExe wavPath txtDir
    e.modelName e.lang
  let r := e.exec c
  let fs4 := fs3 ++ r.created
  match (run_cmd_stream c r).2 with
  | Except.error m => ⟨[], fs4, Outcome.failure m⟩
  | Except.ok _ => finishStage wd e base wavPath txtPath0 fs4

/-- The ExtractAudio stage body: `mp4_to_wav` (409-410), its
postcondition (411-412), then the Transcribe stage. -/
def extractStage (wd : String) (e : Env)
    (base mp4Path wavPath txtPath0 txtDir : String) (fs2 : FS) :
    RunResult :=
  let c := wavCmd mp4Path wavPath
  let r := e.exec c
  let fs3 := fs2 ++ r.created
  match (run_cmd_stream c r).2 with
  | Except.error m => ⟨[], fs3, Outcome.failure m⟩
  | Except.ok _ =>
    if isFile fs3 wavPath then
      let rest := transcribeStage wd e base wavPath txtPath0 txtDir fs3
      ⟨[(Ev.done Stage.extract wavPath, fs3),
        (Ev.start Stage.transcribe wavPath, fs3)] ++ rest.trace,
       rest.fs, rest.outcome⟩
    else ⟨[], fs3, Outcome.failure wavMissingMsg⟩

/-- Everything after `download_youtube` returned a path `d`: derive the
shared base name (395-396), the three artifact paths (400-402), run
Normalize (404-407), then ExtractAudio and Transcribe. -/
def afterFetch (wd : String) (e : Env) (d : String) (fs1 : FS) :
    RunResult :=
  let base := stem (basename d)
  let mp4Dir := pathJoin wd "mp4"
  let txtDir := pathJoin wd "txt"
  let mp4Path := pathJoin mp4Dir (base ++ ".mp4")
  let wavPath := pathJoin mp4Dir (base ++ ".wav")
  let txtPath0 := pathJoin txtDir (base ++ ".txt")
  match normalize_stage e.exec d mp4Path fs1 with
  | (fs2, _, Except.error m) =>
    ⟨[(Ev.start Stage.normalize d, fs1)], fs2, Outcome.failure m⟩
  | (fs2, _, Except.ok _) =>
    let rest := extractStage wd e base mp4Path wavPath txtPath0 txtDir fs2
    ⟨[(Ev.start Stage.normalize d, fs1),
      (Ev.done Stage.normalize mp4Path, fs2),
      (Ev.start Stage.extract mp4Path, fs2)] ++ rest.trace,
     rest.fs, rest.outcome⟩

/-- `_pipeline_thread` (lines 356-448): engine check, then the four
stages in sequence, any raised error caught by the outer handler and
turned into a failure outcome. -/
def pipeline (wd : String) (e : Env) (fs0 : FS) : RunResult :=
  let videoDir := pathJoin wd "video"
  let baseTemplate := "%(title).80s_%(id)s_" ++ e.dateTag
  let cE := ensureWhisperCmd e.pythonExe
  let rE := e.exec cE
  let fsE := fs0 ++ rE.created
  match (run_cmd_stream cE rE).2 with
  | Except.error m => ⟨[(Ev.engineCheck, fs0)], fsE, Outcome.failure m⟩
  | Except.ok _ =>
    match download_youtube e.exec e.url videoDir baseTemplate
        e.listVideoDir fsE with
    | (fs1, Except.error m) =>
      ⟨[(Ev.engineCheck, fs0), (Ev.start Stage.fetch e.url, fsE)],
       fs1, Outcome.failure m⟩
    | (fs1, Except.ok d) =>
      let rest := afterFetch wd e d fs1
      ⟨[(Ev.engineCheck, fs0), (Ev.start Stage.fetch e.url, fsE),
        (Ev.done Stage.fetch d, fs1)] ++ rest.trace,
       rest.fs, rest.outcome⟩

/-! ## Re-entrancy model of the App

`start_pipeline` (lines 320-354) is installed as the command of the
run button (line 286) and is reachable only through it.  Tk delivers a
button's command only while the button is in the `normal` state;
`start_pipeline` disables the button (line 347) before spawning the
worker thread, and the worker's `finally` block re-enables it (448) as
its last act.  `UiState.running` says a worker thread is alive,
`btnRunEnabled` is the Tk state of the run button; a `click v` event is
a user press of the button whose input validations (URL scheme, tool
availability, work directory) evaluate to `v`. -/

structure UiState where
  btnRunEnabled : Bool
  running : Bool
deriving Repr, DecidableEq

/-- `start_pipeline`: the validation-failure paths return without
touching the button or spawning a thread; otherwise the button is
disabled and the worker thread started. -/
def start_pipeline (valid : Bool) (s : UiState) : UiState :=
  if valid then { btnRunEnabled := false, running := true } else s

/-- UI events: a button press (with the validation outcome at press
time) and the worker thread reaching its `finally` block. -/
inductive UiEv
  | click (valid : Bool)
  | finish
deriving Repr, DecidableEq

/-- One step of the App: Tk invokes the button command only when the
button is enabled; the `finally` block re-enables the button when the
worker ends. -/
def uiStep : UiEv → UiState → UiState
  | UiEv.click v, s => if s.btnRunEnabled then start_pipeline v s else s
  | UiEv.finish, s =>
    if s.running then { btnRunEnabled := true, running := false } else s

/-- The App starts idle with the button enabled. -/
def uiInit : UiState := { btnRunEnabled := true, running := false }

/-- States the App can reach. -/
inductive UiReachable : UiState → Prop
  | init : UiReachable uiInit
  | step {s : UiState} (ev : UiEv) (h : UiReachable s) :
      UiReachable (uiStep ev s)

/-- Project a milestone event to its stage tag: `(true, s)` for the
start of stage `s`, `(false, s)` for its verified completion. -/
def stageTag : Ev → Option (Bool × Stage)
  | Ev.start s _ => some (true, s)
  | Ev.done s _ => some (false, s)
  | _ => none

/-- The stage tags of a trace, in order. -/
def tagsOf (tr : List (Ev × FS)) : List (Bool × Stage) :=
  (tr.map Prod.fst).filterMap stageTag

/-- The canonical complete stage sequence: each stage starts only after
the previous one completed, in the order Fetch, Normalize,
ExtractAudio, Transcribe. -/
def canonSeq : List (Bool × Stage) :=
  [(true, Stage.fetch), (false, Stage.fetch),
   (true, Stage.normalize), (false, Stage.normalize),
   (true, Stage.extract), (false, Stage.extract),
   (true, Stage.transcribe), (false, Stage.transcribe)]

/-- One filesystem step along the trace: every file existing at an
event still exists at the next one, except a file the next event
removes as its cleanup target. -/
def fsStep (a b : Ev × FS) : Prop :=
  ∀ x ∈ a.2, x ∈ b.2 ∨ ∃ ok, b.1 = Ev.cleanup x ok

/-! ## Concrete stubbed runs

A run in work directory `"w"` on 2025-01-01 where yt-dlp resolves the
template to `Clip_abc_20250101.webm`, used to evaluate the model at
concrete inputs. -/

/-- The file the stubbed downloader creates and prints. -/
def vidFile : String := "w/video/Clip_abc_20250101.webm"

/-- The normalized container the stubbed ffmpeg writes. -/
def mp4File : String := "w/mp4/Clip_abc_20250101.mp4"

/-- The transient raw-audio file the stubbed ffmpeg writes. -/
def wavFile : String := "w/mp4/Clip_abc_20250101.wav"

/-- The text file whisper is expected to write. -/
def txtFile : String := "w/txt/Clip_abc_20250101.txt"

/-- The whisper invocation of the stubbed run. -/
def whisperCmdC : List String :=
  explain_whisper_command "py" wavFile "w/txt" "small" "en"

/-- Process oracle where all four tools succeed and write their
expected files. -/
def okExec : Exec := fun c =>
  if c = ensureWhisperCmd "py" then ⟨["OK: whisper importable"], 0, []⟩
  else if c = ytdlpCmd "https://x/y" "w/video" "%(title).80s_%(id)s_20250101"
    then ⟨[vidFile], 0, [vidFile]⟩
  else if c = ffCopyCmd vidFile mp4File then ⟨[], 0, [mp4File]⟩
  else if c = wavCmd mp4File wavFile then ⟨[], 0, [wavFile]⟩
  else ⟨[], 0, [txtFile]⟩

/-- Environment of the all-stubs-succeed run. -/
def okEnv : Env :=
  ⟨okExec, [], ["mp4", "txt", "video", "whisper_youtube_log.txt"],
   true, "https://x/y", "small", "en", "py", "20250101"⟩

/-- Same run, but whisper exits 0 without writing any file. -/
def noTxtEnv : Env :=
  { okEnv with exec := fun c =>
      if c = whisperCmdC then ⟨[], 0, []⟩ else okExec c }

/-- Same run, but whisper writes only `<base>-partial.txt` into the
output directory `w/txt`. -/
def partialTxtFile : String := "w/txt/Clip_abc_20250101-partial.txt"

/-- Environment where only a base-prefixed partial transcript exists in
the output directory. -/
def partialEnv : Env :=
  { okEnv with exec := fun c =>
      if c = whisperCmdC then ⟨[], 0, [partialTxtFile]⟩ else okExec c }

/-- Process oracle whose primary Normalize invocation is forced to exit
non-zero and whose fallback succeeds. -/
def normFailExec : Exec := fun c =>
  if c = ffCopyCmd "in.webm" "out.mp4" then ⟨[], 1, []⟩
  else ⟨[], 0, ["out.mp4"]⟩

/-! ## Helper lemmas -/

theorem isFile_iff {fs : FS} {p : String} : isFile fs p = true ↔ p ∈ fs := by
  simp [isFile]

theorem subOccurs_nil_needle (hay : List Char) : subOccurs hay [] = true := by
  induction hay with
  | nil => rfl
  | cons a t ih => simp [subOccurs, ih]

theorem isPrefixOf_self_append (l t : List Char) :
    List.isPrefixOf l (l ++ t) = true := by
  rw [List.isPrefixOf_iff_prefix]
  exact ⟨t, rfl⟩

theorem subOccurs_middle (pre needle post : List Char) :
    subOccurs (pre ++ needle ++ post) needle = true := by
  induction pre with
  | nil =>
    cases needle with
    | nil => simpa using subOccurs_nil_needle post
    | cons c cs =>
      show subOccurs ((c :: cs) ++ post) (c :: cs) = true
      simp [subOccurs, isPrefixOf_self_append]
  | cons a t ih => simp [subOccurs] at ih ⊢; simp [ih]

theorem cmdFailMsg_has_code (rc : Int) :
    subOccurs (cmdFailMsg rc).data (toString rc).data = true := by
  have h : (cmdFailMsg rc).data =
      "Commande échouée (code ".data ++ (toString rc).data ++ ")".data ++
        ".".data := by
    simp [cmdFailMsg, String.data_append]
  rw [h]
  have := subOccurs_middle "Commande échouée (code ".data
    (toString rc).data (")".data ++ ".".data)
  simpa [List.append_assoc] using this

theorem cmdFailMsg_head (rc : Int) : (cmdFailMsg rc).data.head? = some 'C' := by
  have h : (cmdFailMsg rc).data =
      "Commande échouée (code ".data ++
        ((toString rc).data ++ ").".data) := by
    simp [cmdFailMsg, String.data_append]
  rw [h]
  rfl

theorem cmdFailMsg_ne_txtMissing (rc : Int) : cmdFailMsg rc ≠ txtMissingMsg := by
  intro h
  have h2 := congrArg (fun s => s.data.head?) h
  simp only [] at h2
  rw [cmdFailMsg_head] at h2
  exact absurd h2 (by decide)

/-! ## C7: failures of the Process Runner -/

/-- C7, counterexample.  The claim says every non-zero-exit failure is
wrapped with the offending command line and the exit code.  Here the
command `yt-dlp` exits with code 1: the raised message carries the exit
code but the pretty-printed command line does not occur in it anywhere;
the command is only shown on the Observer/log side. -/
theorem run_cmd_stream_error_lacks_command :
    (run_cmd_stream ["yt-dlp"] ⟨[], 1, []⟩).2 = Except.error (cmdFailMsg 1) ∧
    subOccurs (cmdFailMsg 1).data (pretty_cmd ["yt-dlp"]).data = false := by
  exact ⟨rfl, by decide⟩

/-- C7, amended.  `run_cmd_stream` raises a failure exactly on non-zero
exit status; the failure message is `Commande échouée (code <rc>).`,
which contains the exit code but not the command line; the command line
is delivered to the Observer as the first forwarded line (`$ <cmd>`)
when the process is launched, not inside the failure. -/
theorem run_cmd_stream_error_contract (cmd : List String) (r : ProcResult)
    (h : r.rc ≠ 0) :
    (run_cmd_stream cmd r).2 = Except.error (cmdFailMsg r.rc) ∧
    subOccurs (cmdFailMsg r.rc).data (toString r.rc).data = true ∧
    (run_cmd_stream cmd r).1.headD "" = "$ " ++ pretty_cmd cmd := by
  refine ⟨?_, cmdFailMsg_has_code r.rc, rfl⟩
  simp [run_cmd_stream, h]

/-- Witness for the amended C7 theorem at a concrete failing run. -/
theorem run_cmd_stream_error_contract_witness :
    ((2 : Int) ≠ 0) ∧
    ((run_cmd_stream ["ffmpeg", "-y"] ⟨["x"], 2, []⟩).2 =
        Except.error (cmdFailMsg 2) ∧
      subOccurs (cmdFailMsg 2).data (toString (2 : Int)).data = true ∧
      (run_cmd_stream ["ffmpeg", "-y"] ⟨["x"], 2, []⟩).1.headD "" =
        "$ " ++ pretty_cmd ["ffmpeg", "-y"]) :=
  ⟨by decide,
   run_cmd_stream_error_contract ["ffmpeg", "-y"] ⟨["x"], 2, []⟩ (by decide)⟩

/-! ## C8: the Transcribe command line -/

/-- C8.  The whisper invocation always requests plain-text output
(`--output_format txt`) into the output directory (`--output_dir`),
GPU acceleration (`--device cuda`), the transcription task
(`--task transcribe`) and verbose streaming (`--verbose True`); the
language flag `--language <lang>` is appended exactly when the
requested language is not `"auto"` — for `"auto"` the command is the
bare vector, which contains no language flag. -/
theorem whisper_command_flags (py wav out modelName lang : String) :
    (["--device", "cuda"] <:+: explain_whisper_command py wav out modelName lang) ∧
    (["--task", "transcribe"] <:+: explain_whisper_command py wav out modelName lang) ∧
    (["--output_dir", out] <:+: explain_whisper_command py wav out modelName lang) ∧
    (["--output_format", "txt"] <:+: explain_whisper_command py wav out modelName lang) ∧
    (["--verbose", "True"] <:+: explain_whisper_command py wav out modelName lang) ∧
    (lang ≠ "auto" →
      ["--language", lang] <:+ explain_whisper_command py wav out modelName lang) ∧
    (lang = "auto" →
      explain_whisper_command py wav out modelName lang =
        [py, "-m", "whisper", wav, "--model", modelName, "--device", "cuda",
         "--task", "transcribe", "--output_dir", out, "--output_format",
         "txt", "--verbose", "True"]) := by
  have hmid : ∀ mid pre post : List String,
      pre ++ mid ++ post =
        [py, "-m", "whisper", wav, "--model", modelName, "--device", "cuda",
         "--task", "transcribe", "--output_dir", out, "--output_format",
         "txt", "--verbose", "True"] →
      mid <:+: explain_whisper_command py wav out modelName lang := by
    intro mid pre post heq
    simp only [explain_whisper_command]
    split
    · exact ⟨pre, post ++ ["--language", lang], by
        rw [← heq]; simp [List.append_assoc]⟩
    · exact ⟨pre, post, heq⟩
  refine ⟨hmid _ [py, "-m", "whisper", wav, "--model", modelName]
      ["--task", "transcribe", "--output_dir", out, "--output_format",
       "txt", "--verbose", "True"] rfl,
    hmid _ [py, "-m", "whisper", wav, "--model", modelName, "--device",
      "cuda"] ["--output_dir", out, "--output_format", "txt", "--verbose",
      "True"] rfl,
    hmid _ [py, "-m", "whisper", wav, "--model", modelName, "--device",
      "cuda", "--task", "transcribe"] ["--output_format", "txt",
      "--verbose", "True"] rfl,
    hmid _ [py, "-m", "whisper", wav, "--model", modelName, "--device",
      "cuda", "--task", "transcribe", "--output_dir", out]
      ["--verbose", "True"] rfl,
    hmid _ [py, "-m", "whisper", wav, "--model", modelName, "--device",
      "cuda", "--task", "transcribe", "--output_dir", out,
      "--output_format", "txt"] [] (by simp),
    fun hn => ⟨[py, "-m", "whisper", wav, "--model", modelName, "--device",
      "cuda", "--task", "transcribe", "--output_dir", out,
      "--output_format", "txt", "--verbose", "True"], by
        simp [explain_whisper_command, hn]⟩,
    fun ha => by simp [explain_whisper_command, ha]⟩

/-- Witness for C8 at a concrete non-auto language. -/
theorem whisper_command_flags_witness :
    ("fr" ≠ "auto") ∧
    (["--language", "fr"] <:+
      explain_whisper_command "py" "a.wav" "out" "small" "fr") :=
  ⟨by decide,
   (whisper_command_flags "py" "a.wav" "out" "small" "fr").2.2.2.2.2.1
     (by decide)⟩

/-! ## C3: Normalize fallback -/

theorem ffCopy_ne_ffReenc (i o : String) : ffCopyCmd i o ≠ ffReencCmd i o := by
  simp [ffCopyCmd, ffReencCmd]

theorem to_mp4_primary_ok (exec : Exec) (i o : String) (fs : FS)
    (h1 : (exec (ffCopyCmd i o)).rc = 0) :
    to_mp4 exec i o fs =
      (fs ++ (exec (ffCopyCmd i o)).created, [ffCopyCmd i o],
       Except.ok ()) := by
  simp [to_mp4, run_cmd_stream, h1]

theorem to_mp4_fallback_ok (exec : Exec) (i o : String) (fs : FS)
    (h1 : (exec (ffCopyCmd i o)).rc ≠ 0)
    (h2 : (exec (ffReencCmd i o)).rc = 0) :
    to_mp4 exec i o fs =
      (fs ++ (exec (ffCopyCmd i o)).created ++ (exec (ffReencCmd i o)).created,
       [ffCopyCmd i o, ffReencCmd i o], Except.ok ()) := by
  simp [to_mp4, run_cmd_stream, h1, h2]

theorem to_mp4_both_fail (exec : Exec) (i o : String) (fs : FS)
    (h1 : (exec (ffCopyCmd i o)).rc ≠ 0)
    (h2 : (exec (ffReencCmd i o)).rc ≠ 0) :
    to_mp4 exec i o fs =
      (fs ++ (exec (ffCopyCmd i o)).created ++ (exec (ffReencCmd i o)).created,
       [ffCopyCmd i o, ffReencCmd i o],
       Except.error (cmdFailMsg (exec (ffReencCmd i o)).rc)) := by
  simp [to_mp4, run_cmd_stream, h1, h2]

/-- C3.  When the primary stream-copy invocation exits non-zero, the
re-encode fallback is invoked exactly once and nothing beyond these two
strategies is ever attempted; the Normalize stage fails exactly when
the fallback also fails (propagating its exit-code error) or when,
after a strategy reported success, the expected output file is absent
(`mp4MissingMsg`, the source's line-407 `RuntimeError`). -/
theorem normalize_fallback_contract (exec : Exec) (inputVideo mp4Path : String)
    (fs : FS) :
    ((exec (ffCopyCmd inputVideo mp4Path)).rc = 0 →
      (to_mp4 exec inputVideo mp4Path fs).2.1 = [ffCopyCmd inputVideo mp4Path]) ∧
    ((exec (ffCopyCmd inputVideo mp4Path)).rc ≠ 0 →
      (to_mp4 exec inputVideo mp4Path fs).2.1 =
        [ffCopyCmd inputVideo mp4Path, ffReencCmd inputVideo mp4Path] ∧
      ((to_mp4 exec inputVideo mp4Path fs).2.1.count
        (ffReencCmd inputVideo mp4Path)) = 1) ∧
    (∀ c ∈ (to_mp4 exec inputVideo mp4Path fs).2.1,
      c = ffCopyCmd inputVideo mp4Path ∨ c = ffReencCmd inputVideo mp4Path) ∧
    (∀ m, (normalize_stage exec inputVideo mp4Path fs).2.2 = Except.error m ↔
      ((exec (ffCopyCmd inputVideo mp4Path)).rc ≠ 0 ∧
        (exec (ffReencCmd inputVideo mp4Path)).rc ≠ 0 ∧
        m = cmdFailMsg (exec (ffReencCmd inputVideo mp4Path)).rc) ∨
      (((exec (ffCopyCmd inputVideo mp4Path)).rc = 0 ∨
         (exec (ffReencCmd inputVideo mp4Path)).rc = 0) ∧
        isFile (normalize_stage exec inputVideo mp4Path fs).1 mp4Path = false ∧
        m = mp4MissingMsg)) := by
  by_cases h1 : (exec (ffCopyCmd inputVideo mp4Path)).rc = 0
  · refine ⟨fun _ => ?_, fun hc => absurd h1 hc, ?_, ?_⟩
    · rw [to_mp4_primary_ok exec inputVideo mp4Path fs h1]
    · intro c hc
      rw [to_mp4_primary_ok exec inputVideo mp4Path fs h1] at hc
      simp at hc
      exact Or.inl hc
    · intro m
      by_cases h3 : isFile (fs ++ (exec (ffCopyCmd inputVideo mp4Path)).created)
          mp4Path
      · simp [normalize_stage, to_mp4, run_cmd_stream, h1, h3]
      · simp only [Bool.not_eq_true] at h3
        simp [normalize_stage, to_mp4, run_cmd_stream, h1, h3, eq_comm]
  · by_cases h2 : (exec (ffReencCmd inputVideo mp4Path)).rc = 0
    · refine ⟨fun hc => absurd hc h1, fun _ => ⟨?_, ?_⟩, ?_, ?_⟩
      · rw [to_mp4_fallback_ok exec inputVideo mp4Path fs h1 h2]
      · rw [to_mp4_fallback_ok exec inputVideo mp4Path fs h1 h2]
        simp [List.count_cons, ffCopy_ne_ffReenc inputVideo mp4Path]
      · intro c hc
        rw [to_mp4_fallback_ok exec inputVideo mp4Path fs h1 h2] at hc
        simp at hc
        exact hc
      · intro m
        by_cases h3 : isFile (fs ++ ((exec (ffCopyCmd inputVideo mp4Path)).created ++
            (exec (ffReencCmd inputVideo mp4Path)).created)) mp4Path
        · simp [normalize_stage, to_mp4, run_cmd_stream, h1, h2, h3]
        · simp only [Bool.not_eq_true] at h3
          simp [normalize_stage, to_mp4, run_cmd_stream, h1, h2, h3, eq_comm]
    · refine ⟨fun hc => absurd hc h1, fun _ => ⟨?_, ?_⟩, ?_, ?_⟩
      · rw [to_mp4_both_fail exec inputVideo mp4Path fs h1 h2]
      · rw [to_mp4_both_fail exec inputVideo mp4Path fs h1 h2]
        simp [List.count_cons, ffCopy_ne_ffReenc inputVideo mp4Path]
      · intro c hc
        rw [to_mp4_both_fail exec inputVideo mp4Path fs h1 h2] at hc
        simp at hc
        exact hc
      · intro m
        have hn : normalize_stage exec inputVideo mp4Path fs =
            (fs ++ (exec (ffCopyCmd inputVideo mp4Path)).created ++
              (exec (ffReencCmd inputVideo mp4Path)).created,
             [ffCopyCmd inputVideo mp4Path, ffReencCmd inputVideo mp4Path],
             Except.error (cmdFailMsg (exec (ffReencCmd inputVideo mp4Path)).rc)) := by
          unfold normalize_stage
          rw [to_mp4_both_fail exec inputVideo mp4Path fs h1 h2]
        rw [hn]
        constructor
        · intro hm
          simp at hm
          exact Or.inl ⟨h1, h2, hm.symm⟩
        · rintro (⟨_, _, hm⟩ | ⟨hc, _, _⟩)
          · simp [hm]
          · rcases hc with hc | hc
            · exact absurd hc h1
            · exact absurd hc h2

/-- Witness for C3 at a forced-failing primary strategy. -/
theorem normalize_fallback_contract_witness :
    ((normFailExec (ffCopyCmd "in.webm" "out.mp4")).rc ≠ 0) ∧
    ((to_mp4 normFailExec "in.webm" "out.mp4" []).2.1 =
      [ffCopyCmd "in.webm" "out.mp4", ffReencCmd "in.webm" "out.mp4"] ∧
     (to_mp4 normFailExec "in.webm" "out.mp4" []).2.1.count
       (ffReencCmd "in.webm" "out.mp4") = 1) :=
  ⟨by decide,
   (normalize_fallback_contract normFailExec "in.webm" "out.mp4" []).2.1
     (by decide)⟩

/-! ## C4 and C10: Fetch resolution -/

/-- C4.  The Fetch stage takes the last non-blank printed line as the
candidate path (`dlCand`); when that candidate is non-empty and names
an existing file it is returned as-is; otherwise the destination
directory is scanned and the first entry whose name starts with the
literal (non-templated) name template — the template string verbatim,
placeholders unexpanded — followed by a dot, and which names an
existing file, is returned; when neither resolves to an existing file,
`download_youtube` raises the `DownloadFailed` error of line 152. -/
theorem download_contract (exec : Exec) (url videoDir baseWithDate : String)
    (listing : List String) (fs : FS)
    (h0 : (exec (ytdlpCmd url videoDir baseWithDate)).rc = 0) :
    ((dlCand (exec (ytdlpCmd url videoDir baseWithDate)) ≠ "" ∧
      isFile (fs ++ (exec (ytdlpCmd url videoDir baseWithDate)).created)
        (dlCand (exec (ytdlpCmd url videoDir baseWithDate))) = true) →
      download_youtube exec url videoDir baseWithDate listing fs =
        (fs ++ (exec (ytdlpCmd url videoDir baseWithDate)).created,
         Except.ok (dlCand (exec (ytdlpCmd url videoDir baseWithDate))))) ∧
    (¬(dlCand (exec (ytdlpCmd url videoDir baseWithDate)) ≠ "" ∧
      isFile (fs ++ (exec (ytdlpCmd url videoDir baseWithDate)).created)
        (dlCand (exec (ytdlpCmd url videoDir baseWithDate))) = true) →
      (∀ fn, dlScan videoDir baseWithDate listing
          (fs ++ (exec (ytdlpCmd url videoDir baseWithDate)).created) =
            some fn →
        download_youtube exec url videoDir baseWithDate listing fs =
          (fs ++ (exec (ytdlpCmd url videoDir baseWithDate)).created,
           Except.ok (pathJoin videoDir fn))) ∧
      (dlScan videoDir baseWithDate listing
          (fs ++ (exec (ytdlpCmd url videoDir baseWithDate)).created) =
            none →
        download_youtube exec url videoDir baseWithDate listing fs =
          (fs ++ (exec (ytdlpCmd url videoDir baseWithDate)).created,
           Except.error dlFailMsg))) := by
  constructor
  · rintro ⟨hne, hfile⟩
    simp [download_youtube, run_cmd_stream, h0, hne, hfile]
  · intro hnot
    constructor
    · intro fn hfn
      simp [download_youtube, run_cmd_stream, h0, hfn]
      intro hne hf
      exact absurd ⟨hne, hf⟩ hnot
    · intro hnone
      simp [download_youtube, run_cmd_stream, h0, hnone]
      intro hne
      rcases Bool.eq_false_or_eq_true
        (isFile (fs ++ (exec (ytdlpCmd url videoDir baseWithDate)).created)
          (dlCand (exec (ytdlpCmd url videoDir baseWithDate)))) with hf | hf
      · exact absurd ⟨hne, hf⟩ hnot
      · exact hf

/-- The downloader stub for the C4 witness: exits 0 and prints a line
that names no existing file. -/
def dlExecC : Exec := fun _ => ⟨["no"], 0, []⟩

/-- Witness for C4: the printed path does not exist, a file whose name
is the literal template plus extension does, and it is returned. -/
theorem download_contract_witness :
    (¬(dlCand (dlExecC (ytdlpCmd "u" "vd" "%(title).80s_%(id)s_20250101")) ≠ "" ∧
      isFile (["vd/%(title).80s_%(id)s_20250101.mkv"] ++
          (dlExecC (ytdlpCmd "u" "vd" "%(title).80s_%(id)s_20250101")).created)
        (dlCand (dlExecC (ytdlpCmd "u" "vd" "%(title).80s_%(id)s_20250101"))) =
          true)) ∧
    download_youtube dlExecC "u" "vd" "%(title).80s_%(id)s_20250101"
        ["%(title).80s_%(id)s_20250101.mkv"]
        ["vd/%(title).80s_%(id)s_20250101.mkv"] =
      (["vd/%(title).80s_%(id)s_20250101.mkv"] ++
        (dlExecC (ytdlpCmd "u" "vd" "%(title).80s_%(id)s_20250101")).created,
       Except.ok (pathJoin "vd" "%(title).80s_%(id)s_20250101.mkv")) :=
  ⟨by decide,
   ((download_contract dlExecC "u" "vd" "%(title).80s_%(id)s_20250101"
      ["%(title).80s_%(id)s_20250101.mkv"]
      ["vd/%(title).80s_%(id)s_20250101.mkv"] (by decide)).2
      (by decide)).1 "%(title).80s_%(id)s_20250101.mkv" (by decide)⟩

/-- C10.  When the downloader exits 0 having printed nothing, the
candidate is the empty string (the `lines[-1] if lines else ""` guard
of line 139 prevents any out-of-bounds access), the primary acceptance
is skipped, and the stage proceeds to the directory scan, failing with
the `DownloadFailed` error only when the scan finds nothing. -/
theorem download_handles_empty_output (exec : Exec)
    (url videoDir baseWithDate : String) (listing : List String) (fs : FS)
    (h0 : (exec (ytdlpCmd url videoDir baseWithDate)).rc = 0)
    (hl : (exec (ytdlpCmd url videoDir baseWithDate)).lines = []) :
    dlCand (exec (ytdlpCmd url videoDir baseWithDate)) = "" ∧
    (∀ fn, dlScan videoDir baseWithDate listing
        (fs ++ (exec (ytdlpCmd url videoDir baseWithDate)).created) =
          some fn →
      download_youtube exec url videoDir baseWithDate listing fs =
        (fs ++ (exec (ytdlpCmd url videoDir baseWithDate)).created,
         Except.ok (pathJoin videoDir fn))) ∧
    (dlScan videoDir baseWithDate listing
        (fs ++ (exec (ytdlpCmd url videoDir baseWithDate)).created) = none →
      download_youtube exec url videoDir baseWithDate listing fs =
        (fs ++ (exec (ytdlpCmd url videoDir baseWithDate)).created,
         Except.error dlFailMsg)) := by
  have hcand : dlCand (exec (ytdlpCmd url videoDir baseWithDate)) = "" := by
    simp [dlCand, hl]
  refine ⟨hcand, ?_, ?_⟩
  · intro fn hfn
    simp [download_youtube, run_cmd_stream, h0, hcand, hfn]
  · intro hnone
    simp [download_youtube, run_cmd_stream, h0, hcand, hnone]

/-- The downloader stub for the C10 witness: exits 0, prints nothing,
creates nothing. -/
def silentExec : Exec := fun _ => ⟨[], 0, []⟩

/-- Witness for C10 on a silent successful downloader run with an empty
destination directory. -/
theorem download_handles_empty_output_witness :
    (silentExec (ytdlpCmd "u" "vd" "b")).rc = 0 ∧
    (silentExec (ytdlpCmd "u" "vd" "b")).lines = [] ∧
    dlCand (silentExec (ytdlpCmd "u" "vd" "b")) = "" ∧
    download_youtube silentExec "u" "vd" "b" [] [] =
      ([] ++ (silentExec (ytdlpCmd "u" "vd" "b")).created,
       Except.error dlFailMsg) :=
  ⟨rfl, rfl,
   (download_handles_empty_output silentExec "u" "vd" "b" [] [] rfl rfl).1,
   (download_handles_empty_output silentExec "u" "vd" "b" [] [] rfl rfl).2.2
     rfl⟩

/-! ## C9: re-entrancy -/

theorem ui_step_preserves (ev : UiEv) (s : UiState)
    (ih : s.running = true → s.btnRunEnabled = false) :
    (uiStep ev s).running = true → (uiStep ev s).btnRunEnabled = false := by
  obtain ⟨b, r⟩ := s
  cases ev with
  | click v => cases b <;> cases v <;> simp_all [uiStep, start_pipeline]
  | finish => cases b <;> cases r <;> simp_all [uiStep]

theorem ui_running_button_disabled {s : UiState} (h : UiReachable s) :
    s.running = true → s.btnRunEnabled = false := by
  induction h with
  | init => intro hr; exact absurd hr (by decide)
  | step ev h ih => exact ui_step_preserves ev _ ih

/-- C9.  While a run owned by the App is in progress the run button is
disabled (line 347; re-enabled only by the worker's `finally` at 448),
and Tk does not deliver a disabled button's command, so a request to
start — a press of the run button, the only route to `start_pipeline`
(line 286) — is rejected (is a no-op) whenever the App is not idle. -/
theorem start_rejected_unless_idle (s : UiState) (h : UiReachable s)
    (hrun : s.running = true) (v : Bool) :
    uiStep (UiEv.click v) s = s := by
  have hb := ui_running_button_disabled h hrun
  simp [uiStep, hb]

/-- Witness for C9: after one accepted start the App is busy, and a
further click changes nothing. -/
theorem start_rejected_unless_idle_witness :
    uiStep (UiEv.click true) { btnRunEnabled := false, running := true } =
      { btnRunEnabled := false, running := true } :=
  start_rejected_unless_idle { btnRunEnabled := false, running := true }
    (UiReachable.step (UiEv.click true) UiReachable.init) rfl true

/-! ## C5: the Transcribe fallback scans the wrong directory -/

/-- C5 describes the intended fallback — scan the *output* directory
for base-prefixed `.txt` files — but the code scans the *work*
directory (`os.listdir(workdir)`, line 421) while whisper writes into
`txt_dir` (line 416), contradicting the comment at line 415 which still
claims `output_dir=workdir`.  In this run whisper wrote the
base-prefixed candidate `<base>-partial.txt` into the output directory
`w/txt`, yet the run fails with the `OutputMissing` error of line 441:
the candidate is never seen because the scan looks in `w`, not in
`w/txt`. -/
theorem transcribe_fallback_misses_output_dir :
    (pipeline "w" partialEnv []).outcome = Outcome.failure txtMissingMsg ∧
    isFile (pipeline "w" partialEnv []).fs partialTxtFile = true ∧
    pyStartsWith (basename partialTxtFile) (stem (basename vidFile)) = true ∧
    pyEndsWith (pyLower (basename partialTxtFile)) ".txt" = true := by
  exact ⟨rfl, rfl, rfl, rfl⟩

/-! ## C1: ordering of the engine check and the stage milestones -/

theorem prefix_append_left {α : Type} (a : List α) {b c : List α}
    (h : b <+: c) : a ++ b <+: a ++ c := by
  obtain ⟨t, ht⟩ := h
  exact ⟨t, by rw [← ht]; simp [List.append_assoc]⟩

theorem tagsOf_append (t1 t2 : List (Ev × FS)) :
    tagsOf (t1 ++ t2) = tagsOf t1 ++ tagsOf t2 := by
  simp [tagsOf, List.filterMap_append]

theorem finishStage_tags (wd : String) (e : Env)
    (base wavPath txtPath0 : String) (fs4 : FS) :
    tagsOf (finishStage wd e base wavPath txtPath0 fs4).trace <+:
      [(false, Stage.transcribe)] := by
  simp only [finishStage]
  split_ifs <;> first
    | exact List.prefix_rfl
    | exact List.nil_prefix

theorem finishStage_success_tags (wd : String) (e : Env)
    (base wavPath txtPath0 : String) (fs4 : FS) (t : String)
    (h : (finishStage wd e base wavPath txtPath0 fs4).outcome =
      Outcome.success t) :
    tagsOf (finishStage wd e base wavPath txtPath0 fs4).trace =
      [(false, Stage.transcribe)] := by
  revert h
  simp only [finishStage]
  split_ifs <;> intro h <;> first
    | rfl
    | exact absurd h (by simp)

theorem transcribeStage_tags (wd : String) (e : Env)
    (base wavPath txtPath0 txtDir : String) (fs3 : FS) :
    tagsOf (transcribeStage wd e base wavPath txtPath0 txtDir fs3).trace <+:
      [(false, Stage.transcribe)] := by
  simp only [transcribeStage]
  split
  · exact List.nil_prefix
  · exact finishStage_tags wd e base wavPath txtPath0 _

theorem transcribeStage_success_tags (wd : String) (e : Env)
    (base wavPath txtPath0 txtDir : String) (fs3 : FS) (t : String)
    (h : (transcribeStage wd e base wavPath txtPath0 txtDir fs3).outcome =
      Outcome.success t) :
    tagsOf (transcribeStage wd e base wavPath txtPath0 txtDir fs3).trace =
      [(false, Stage.transcribe)] := by
  revert h
  simp only [transcribeStage]
  split
  · intro h; exact absurd h (by simp)
  · intro h; exact finishStage_success_tags wd e base wavPath txtPath0 _ t h

theorem extractStage_tags (wd : String) (e : Env)
    (base mp4Path wavPath txtPath0 txtDir : String) (fs2 : FS) :
    tagsOf (extractStage wd e base mp4Path wavPath txtPath0 txtDir fs2).trace
      <+: [(false, Stage.extract), (true, Stage.transcribe),
           (false, Stage.transcribe)] := by
  simp only [extractStage]
  split
  · exact List.nil_prefix
  · split
    · show tagsOf ([(Ev.done Stage.extract wavPath, _),
        (Ev.start Stage.transcribe wavPath, _)] ++ _) <+:
        [(false, Stage.extract), (true, Stage.transcribe)] ++
          [(false, Stage.transcribe)]
      rw [tagsOf_append]
      exact prefix_append_left _
        (transcribeStage_tags wd e base wavPath txtPath0 txtDir _)
    · exact List.nil_prefix

theorem extractStage_success_tags (wd : String) (e : Env)
    (base mp4Path wavPath txtPath0 txtDir : String) (fs2 : FS) (t : String)
    (h : (extractStage wd e base mp4Path wavPath txtPath0 txtDir fs2).outcome
      = Outcome.success t) :
    tagsOf (extractStage wd e base mp4Path wavPath txtPath0 txtDir fs2).trace
      = [(false, Stage.extract), (true, Stage.transcribe),
         (false, Stage.transcribe)] := by
  revert h
  simp only [extractStage]
  split
  · intro h; exact absurd h (by simp)
  · split
    · intro h
      show tagsOf ([(Ev.done Stage.extract wavPath, _),
        (Ev.start Stage.transcribe wavPath, _)] ++ _) = _
      rw [tagsOf_append,
        transcribeStage_success_tags wd e base wavPath txtPath0 txtDir _ t h]
      rfl
    · intro h; exact absurd h (by simp)

theorem afterFetch_tags (wd : String) (e : Env) (d : String) (fs1 : FS) :
    tagsOf (afterFetch wd e d fs1).trace <+:
      [(true, Stage.normalize), (false, Stage.normalize),
       (true, Stage.extract), (false, Stage.extract),
       (true, Stage.transcribe), (false, Stage.transcribe)] := by
  simp only [afterFetch]
  split
  · exact ⟨[(false, Stage.normalize), (true, Stage.extract),
      (false, Stage.extract), (true, Stage.transcribe),
      (false, Stage.transcribe)], rfl⟩
  · show tagsOf ([(Ev.start Stage.normalize d, fs1),
      (Ev.done Stage.normalize _, _), (Ev.start Stage.extract _, _)] ++ _)
      <+: [(true, Stage.normalize), (false, Stage.normalize),
           (true, Stage.extract)] ++
        [(false, Stage.extract), (true, Stage.transcribe),
         (false, Stage.transcribe)]
    rw [tagsOf_append]
    exact prefix_append_left _ (extractStage_tags wd e _ _ _ _ _ _)

theorem afterFetch_success_tags (wd : String) (e : Env) (d : String)
    (fs1 : FS) (t : String)
    (h : (afterFetch wd e d fs1).outcome = Outcome.success t) :
    tagsOf (afterFetch wd e d fs1).trace =
      [(true, Stage.normalize), (false, Stage.normalize),
       (true, Stage.extract), (false, Stage.extract),
       (true, Stage.transcribe), (false, Stage.transcribe)] := by
  revert h
  simp only [afterFetch]
  split
  · intro h; exact absurd h (by simp)
  · intro h
    show tagsOf ([(Ev.start Stage.normalize d, fs1),
      (Ev.done Stage.normalize _, _), (Ev.start Stage.extract _, _)] ++ _)
      = _
    rw [tagsOf_append, extractStage_success_tags wd e _ _ _ _ _ _ t h]
    rfl

/-- C1.  In every run the engine-availability check is the very first
milestone, before any stage; the stage milestones that do occur form a
prefix of the canonical sequence — Fetch starts, Fetch completes,
Normalize starts, … , Transcribe completes — so stage starts happen in
exactly the order Fetch, Normalize, ExtractAudio, Transcribe and no
stage starts before the previous one completed; and a successful run
realises the full canonical sequence. -/
theorem pipeline_stage_order (wd : String) (e : Env) (fs0 : FS) :
    ((pipeline wd e fs0).trace.map Prod.fst).head? = some Ev.engineCheck ∧
    tagsOf (pipeline wd e fs0).trace <+: canonSeq ∧
    (∀ t, (pipeline wd e fs0).outcome = Outcome.success t →
      tagsOf (pipeline wd e fs0).trace = canonSeq) := by
  simp only [pipeline]
  split
  · exact ⟨rfl, List.nil_prefix, fun t h => absurd h (by simp)⟩
  · split
    · exact ⟨rfl, ⟨[(false, Stage.fetch), (true, Stage.normalize),
        (false, Stage.normalize), (true, Stage.extract),
        (false, Stage.extract), (true, Stage.transcribe),
        (false, Stage.transcribe)], rfl⟩,
        fun t h => absurd h (by simp)⟩
    · refine ⟨rfl, ?_, ?_⟩
      · show tagsOf ([(Ev.engineCheck, fs0), (Ev.start Stage.fetch e.url, _),
          (Ev.done Stage.fetch _, _)] ++ _) <+:
          [(true, Stage.fetch), (false, Stage.fetch)] ++
            [(true, Stage.normalize), (false, Stage.normalize),
             (true, Stage.extract), (false, Stage.extract),
             (true, Stage.transcribe), (false, Stage.transcribe)]
        rw [tagsOf_append]
        exact prefix_append_left _ (afterFetch_tags wd e _ _)
      · intro t h
        show tagsOf ([(Ev.engineCheck, fs0), (Ev.start Stage.fetch e.url, _),
          (Ev.done Stage.fetch _, _)] ++ _) = _
        rw [tagsOf_append, afterFetch_success_tags wd e _ _ t h]
        rfl

/-- Witness for C1: the stubbed successful run realises the full
canonical stage sequence. -/
theorem pipeline_stage_order_witness :
    (pipeline "w" okEnv []).outcome = Outcome.success txtFile ∧
    tagsOf (pipeline "w" okEnv []).trace = canonSeq :=
  ⟨rfl, (pipeline_stage_order "w" okEnv []).2.2 txtFile rfl⟩

/-! ## C2 and C6: counterexamples around the WAV cleanup -/

/-- C2, counterexample.  In the all-stubs-succeed run the ExtractAudio
stage (stage 3) completes — its `done` milestone is on the trace — yet
at a later point of the same run (after the cleanup step, hence in the
final filesystem) the stage-3 artifact `<base>.wav` no longer exists,
even though the run went on to succeed.  So it is not true that at
every point after stage `i` completes the artifacts of stages `1..i`
all exist on disk. -/
theorem artifact_invariant_cex :
    ((pipeline "w" okEnv []).trace.map Prod.fst).contains
      (Ev.done Stage.extract wavFile) = true ∧
    isFile (pipeline "w" okEnv []).fs wavFile = false ∧
    (pipeline "w" okEnv []).outcome = Outcome.success txtFile :=
  ⟨rfl, rfl, rfl⟩

/-- C6, counterexample.  The WAV is not deleted "exactly when the run
reaches the Succeeded state": in this run whisper exits 0 but writes no
file, the run terminates with the `OutputMissing` failure of line 441
— it never reaches Succeeded — and the WAV has nevertheless been
removed, because the `os.remove` of line 427 runs before the final
existence check of line 432. -/
theorem wav_cleanup_cex :
    (pipeline "w" noTxtEnv []).outcome = Outcome.failure txtMissingMsg ∧
    ((pipeline "w" noTxtEnv []).trace.map Prod.fst).contains
      (Ev.cleanup wavFile true) = true ∧
    isFile (pipeline "w" noTxtEnv []).fs wavFile = false :=
  ⟨rfl, rfl, rfl⟩

/-! ## Support lemmas for the filesystem invariant -/

theorem mem_insertSorted {x a : String} {l : List String} :
    x ∈ insertSorted a l ↔ x = a ∨ x ∈ l := by
  induction l with
  | nil => simp [insertSorted]
  | cons b t ih =>
    simp only [insertSorted]
    split
    · simp [List.mem_cons]
    · simp [List.mem_cons, ih, or_left_comm]

theorem mem_sortStrings {x : String} {l : List String} :
    x ∈ sortStrings l ↔ x ∈ l := by
  induction l with
  | nil => simp [sortStrings]
  | cons a t ih => simp [sortStrings, mem_insertSorted, ih]

/-- Case analysis on the text-path resolution: it is either the
expected `<txtDir>/<base>.txt`, or `<workdir>/<c>` for some work-dir
listing entry `c` that starts with the base. -/
theorem resolveTxt_cases (wd : String) (e : Env) (base txtPath0 : String)
    (fs4 : FS) :
    resolveTxt wd e base txtPath0 fs4 = txtPath0 ∨
    ∃ c, c ∈ e.listWorkdir ∧ pyStartsWith c base = true ∧
      resolveTxt wd e base txtPath0 fs4 = pathJoin wd c := by
  unfold resolveTxt
  split_ifs with h1
  · exact Or.inl rfl
  · rcases hs : sortStrings (e.listWorkdir.filter (fun f =>
        pyEndsWith (pyLower f) ".txt" && pyStartsWith f base)) with _ | ⟨c, t⟩
    · exact Or.inl rfl
    · have hc : c ∈ e.listWorkdir.filter (fun f =>
          pyEndsWith (pyLower f) ".txt" && pyStartsWith f base) := by
        rw [← mem_sortStrings (l := e.listWorkdir.filter (fun f =>
          pyEndsWith (pyLower f) ".txt" && pyStartsWith f base)), hs]
        simp
      rw [List.mem_filter] at hc
      exact Or.inr ⟨c, hc.1, ((Bool.and_eq_true _ _).mp hc.2).2, rfl⟩

theorem stemLeading (s : String) : (stem s).data <+: s.data := by
  simp only [stem]
  split
  · exact List.prefix_rfl
  · exact List.take_prefix _ _

theorem basename_no_slash (s : String) : ('/' : Char) ∉ (basename s).data := by
  intro h
  simp only [basename] at h
  rw [List.mem_reverse] at h
  have := List.mem_takeWhile_imp h
  simp at this

theorem takeWhile_append_all {α : Type} (p : α → Bool) (l₁ l₂ : List α)
    (h : ∀ x ∈ l₁, p x = true) :
    (l₁ ++ l₂).takeWhile p = l₁ ++ l₂.takeWhile p := by
  induction l₁ with
  | nil => simp
  | cons a t ih =>
    have ha := h a (by simp)
    simp [List.takeWhile_cons, ha, ih (fun x hx => h x (by simp [hx]))]

theorem basename_append (dir b : String) (hb : ('/' : Char) ∉ b.data) :
    basename (dir ++ "/" ++ b) = b := by
  simp only [basename]
  have hdata : (dir ++ "/" ++ b).data = dir.data ++ '/' :: b.data := by
    rw [String.data_append, String.data_append, List.append_assoc]
    rfl
  rw [hdata]
  have hrev : (dir.data ++ '/' :: b.data).reverse =
      b.data.reverse ++ '/' :: dir.data.reverse := by
    simp
  rw [hrev]
  rw [takeWhile_append_all _ _ _ (fun x hx => by
    rw [List.mem_reverse] at hx
    simp only [decide_eq_true_eq]
    intro hcontra
    exact hb (hcontra ▸ hx))]
  simp [List.takeWhile_cons]

theorem no_slash_stem_basename (s : String) :
    ('/' : Char) ∉ (stem (basename s)).data :=
  fun h => basename_no_slash s ((stemLeading (basename s)).subset h)

/-- The base name is a leading part of the name of any
`<dir>/<base><ext>` artifact. -/
theorem base_prefix_of_artifact (dir b ext : String)
    (hb : ('/' : Char) ∉ b.data) (hext : ('/' : Char) ∉ ext.data) :
    b.data <+: (basename (pathJoin dir (b ++ ext))).data := by
  have hbe : ('/' : Char) ∉ (b ++ ext).data := by
    rw [String.data_append]
    intro h
    rcases List.mem_append.mp h with h | h
    · exact hb h
    · exact hext h
  show b.data <+: (basename (dir ++ "/" ++ (b ++ ext))).data
  rw [basename_append dir (b ++ ext) hbe, String.data_append]
  exact List.prefix_append _ _

theorem download_fs (exec : Exec) (url videoDir baseWithDate : String)
    (listing : List String) (fs : FS) :
    (download_youtube exec url videoDir baseWithDate listing fs).1 =
      fs ++ (exec (ytdlpCmd url videoDir baseWithDate)).created := by
  simp only [download_youtube]
  split
  · rfl
  · split
    · rfl
    · split <;> rfl

theorem download_ok_isFile (exec : Exec) (url videoDir baseWithDate : String)
    (listing : List String) (fs : FS) (d : String)
    (h : (download_youtube exec url videoDir baseWithDate listing fs).2 =
      Except.ok d) :
    isFile (fs ++ (exec (ytdlpCmd url videoDir baseWithDate)).created) d =
      true := by
  revert h
  simp only [download_youtube]
  split
  · intro h; exact absurd h (by simp)
  · split
    · rename_i hcond
      intro h
      simp only [Prod.mk.injEq] at h
      have h2 := ((Bool.and_eq_true _ _).mp hcond).2
      simp at h
      rw [← h]
      exact h2
    · split
      · rename_i fn hs
        intro h
        simp only [Prod.mk.injEq] at h
        simp at h
        have hp := List.find?_some hs
        rw [← h]
        exact ((Bool.and_eq_true _ _).mp hp).2
      · intro h; exact absurd h (by simp)

theorem to_mp4_fs_mono (exec : Exec) (i o : String) (fs : FS) :
    ∀ x ∈ fs, x ∈ (to_mp4 exec i o fs).1 := by
  intro x hx
  by_cases h1 : (exec (ffCopyCmd i o)).rc = 0
  · rw [to_mp4_primary_ok exec i o fs h1]
    exact List.mem_append_left _ hx
  · by_cases h2 : (exec (ffReencCmd i o)).rc = 0
    · rw [to_mp4_fallback_ok exec i o fs h1 h2]
      exact List.mem_append_left _ (List.mem_append_left _ hx)
    · rw [to_mp4_both_fail exec i o fs h1 h2]
      exact List.mem_append_left _ (List.mem_append_left _ hx)

theorem normalize_stage_fs (exec : Exec) (i o : String) (fs : FS) :
    (normalize_stage exec i o fs).1 = (to_mp4 exec i o fs).1 := by
  by_cases h1 : (exec (ffCopyCmd i o)).rc = 0
  · simp only [normalize_stage, to_mp4_primary_ok exec i o fs h1]
    split <;> rfl
  · by_cases h2 : (exec (ffReencCmd i o)).rc = 0
    · simp only [normalize_stage, to_mp4_fallback_ok exec i o fs h1 h2]
      split <;> rfl
    · simp only [normalize_stage, to_mp4_both_fail exec i o fs h1 h2]

theorem normalize_stage_fs_mono (exec : Exec) (i o : String) (fs : FS) :
    ∀ x ∈ fs, x ∈ (normalize_stage exec i o fs).1 := by
  intro x hx
  rw [normalize_stage_fs]
  exact to_mp4_fs_mono exec i o fs x hx

theorem normalize_stage_ok_isFile (exec : Exec) (i o : String) (fs : FS)
    (h : (normalize_stage exec i o fs).2.2 = Except.ok ()) :
    isFile (normalize_stage exec i o fs).1 o = true := by
  revert h
  by_cases h1 : (exec (ffCopyCmd i o)).rc = 0
  · simp only [normalize_stage, to_mp4_primary_ok exec i o fs h1]
    split
    · rename_i hfile
      intro _
      exact hfile
    · intro h; exact absurd h (by simp)
  · by_cases h2 : (exec (ffReencCmd i o)).rc = 0
    · simp only [normalize_stage, to_mp4_fallback_ok exec i o fs h1 h2]
      split
      · rename_i hfile
        intro _
        exact hfile
      · intro h; exact absurd h (by simp)
    · simp only [normalize_stage, to_mp4_both_fail exec i o fs h1 h2]
      intro h; exact absurd h (by simp)

theorem finishStage_no_start (wd : String) (e : Env)
    (base wavPath txtPath0 : String) (fs4 : FS) :
    ∀ s inp fsS, (Ev.start s inp, fsS) ∈
      (finishStage wd e base wavPath txtPath0 fs4).trace → False := by
  intro s inp fsS hm
  simp only [finishStage] at hm
  split_ifs at hm <;> simp at hm

theorem finishStage_done (wd : String) (e : Env)
    (base wavPath txtPath0 : String) (fs4 : FS) :
    ∀ s a fsD, (Ev.done s a, fsD) ∈
      (finishStage wd e base wavPath txtPath0 fs4).trace →
      s = Stage.transcribe ∧ isFile fsD a = true ∧
      (a = txtPath0 ∨ ∃ c, c ∈ e.listWorkdir ∧ pyStartsWith c base = true ∧
        a = pathJoin wd c) := by
  intro s a fsD hm
  simp only [finishStage] at hm
  split_ifs at hm with h1 h2 h3 <;> simp at hm
  · obtain ⟨⟨hs, ha⟩, hfsD⟩ := hm
    refine ⟨hs, by rw [hfsD, ha]; simpa using h2, ?_⟩
    rcases resolveTxt_cases wd e base txtPath0 fs4 with hr | ⟨c, hcmem, hcpre, hr⟩
    · exact Or.inl (by rw [ha, hr])
    · exact Or.inr ⟨c, hcmem, hcpre, by rw [ha, hr]⟩
  · obtain ⟨⟨hs, ha⟩, hfsD⟩ := hm
    refine ⟨hs, by rw [hfsD, ha]; exact h3, ?_⟩
    rcases resolveTxt_cases wd e base txtPath0 fs4 with hr | ⟨c, hcmem, hcpre, hr⟩
    · exact Or.inl (by rw [ha, hr])
    · exact Or.inr ⟨c, hcmem, hcpre, by rw [ha, hr]⟩

theorem finishStage_chain (wd : String) (e : Env)
    (base wavPath txtPath0 : String) (fs4 : FS) :
    List.Chain' fsStep (finishStage wd e base wavPath txtPath0 fs4).trace := by
  simp only [finishStage]
  split_ifs <;> first
    | exact List.chain'_singleton _
    | exact List.chain'_cons.mpr ⟨fun x hx => Or.inl hx,
        List.chain'_singleton _⟩

theorem finishStage_head (wd : String) (e : Env)
    (base wavPath txtPath0 : String) (fs4 : FS) :
    ∀ hd ∈ (finishStage wd e base wavPath txtPath0 fs4).trace.head?,
      ∀ x ∈ fs4, x ∈ hd.2 ∨ ∃ ok, hd.1 = Ev.cleanup x ok := by
  intro hd hhd x hx
  simp only [finishStage] at hhd
  split_ifs at hhd with h1 h2 h3 <;> simp at hhd <;> rw [← hhd]
  all_goals by_cases hxw : x = wavPath
  all_goals first
    | (subst hxw; exact Or.inr ⟨_, rfl⟩)
    | (exact Or.inl (List.mem_filter.mpr ⟨hx, by simp [hxw]⟩))
    | (exact Or.inl hx)

theorem finishStage_cleanup (wd : String) (e : Env)
    (base wavPath txtPath0 : String) (fs4 : FS) :
    ∀ p ok fsC, (Ev.cleanup p ok, fsC) ∈
      (finishStage wd e base wavPath txtPath0 fs4).trace → p = wavPath := by
  intro p ok fsC hm
  simp only [finishStage] at hm
  split_ifs at hm <;> simp at hm <;> tauto

theorem transcribeStage_no_start (wd : String) (e : Env)
    (base wavPath txtPath0 txtDir : String) (fs3 : FS) :
    ∀ s inp fsS, (Ev.start s inp, fsS) ∈
      (transcribeStage wd e base wavPath txtPath0 txtDir fs3).trace →
      False := by
  intro s inp fsS hm
  simp only [transcribeStage] at hm
  split at hm
  · simp at hm
  · exact finishStage_no_start wd e base wavPath txtPath0 _ s inp fsS hm

theorem transcribeStage_done (wd : String) (e : Env)
    (base wavPath txtPath0 txtDir : String) (fs3 : FS) :
    ∀ s a fsD, (Ev.done s a, fsD) ∈
      (transcribeStage wd e base wavPath txtPath0 txtDir fs3).trace →
      s = Stage.transcribe ∧ isFile fsD a = true ∧
      (a = txtPath0 ∨ ∃ c, c ∈ e.listWorkdir ∧ pyStartsWith c base = true ∧
        a = pathJoin wd c) := by
  intro s a fsD hm
  simp only [transcribeStage] at hm
  split at hm
  · simp at hm
  · exact finishStage_done wd e base wavPath txtPath0 _ s a fsD hm

theorem transcribeStage_chain (wd : String) (e : Env)
    (base wavPath txtPath0 txtDir : String) (fs3 : FS) :
    List.Chain' fsStep
      (transcribeStage wd e base wavPath txtPath0 txtDir fs3).trace := by
  simp only [transcribeStage]
  split
  · exact List.chain'_nil
  · exact finishStage_chain wd e base wavPath txtPath0 _

theorem transcribeStage_head (wd : String) (e : Env)
    (base wavPath txtPath0 txtDir : String) (fs3 : FS) :
    ∀ hd ∈ (transcribeStage wd e base wavPath txtPath0 txtDir fs3).trace.head?,
      ∀ x ∈ fs3, x ∈ hd.2 ∨ ∃ ok, hd.1 = Ev.cleanup x ok := by
  intro hd hhd x hx
  simp only [transcribeStage] at hhd
  split at hhd
  · simp at hhd
  · exact finishStage_head wd e base wavPath txtPath0 _ hd hhd x
      (List.mem_append_left _ hx)

theorem transcribeStage_cleanup (wd : String) (e : Env)
    (base wavPath txtPath0 txtDir : String) (fs3 : FS) :
    ∀ p ok fsC, (Ev.cleanup p ok, fsC) ∈
      (transcribeStage wd e base wavPath txtPath0 txtDir fs3).trace →
      p = wavPath := by
  intro p ok fsC hm
  simp only [transcribeStage] at hm
  split at hm
  · simp at hm
  · exact finishStage_cleanup wd e base wavPath txtPath0 _ p ok fsC hm

theorem extractStage_start (wd : String) (e : Env)
    (base mp4Path wavPath txtPath0 txtDir : String) (fs2 : FS) :
    ∀ s inp fsS, (Ev.start s inp, fsS) ∈
      (extractStage wd e base mp4Path wavPath txtPath0 txtDir fs2).trace →
      isFile fsS inp = true := by
  intro s inp fsS hm
  simp only [extractStage] at hm
  split at hm
  · simp at hm
  · split at hm
    · rename_i hwav
      simp only [List.cons_append, List.nil_append, List.mem_cons] at hm
      rcases hm with hm | hm | hm
      · exact absurd hm (by simp)
      · simp only [Prod.mk.injEq, Ev.start.injEq] at hm
        obtain ⟨⟨hs, hinp⟩, hfs⟩ := hm
        rw [hfs, hinp]
        exact hwav
      · exact (transcribeStage_no_start wd e base wavPath txtPath0 txtDir
          _ s inp fsS hm).elim
    · simp at hm

theorem extractStage_done (wd : String) (e : Env)
    (base mp4Path wavPath txtPath0 txtDir : String) (fs2 : FS) :
    ∀ s a fsD, (Ev.done s a, fsD) ∈
      (extractStage wd e base mp4Path wavPath txtPath0 txtDir fs2).trace →
      isFile fsD a = true ∧
      ((s = Stage.extract ∧ a = wavPath) ∨
       (s = Stage.transcribe ∧
        (a = txtPath0 ∨ ∃ c, c ∈ e.listWorkdir ∧ pyStartsWith c base = true ∧
          a = pathJoin wd c))) := by
  intro s a fsD hm
  simp only [extractStage] at hm
  split at hm
  · simp at hm
  · split at hm
    · rename_i hwav
      simp only [List.cons_append, List.nil_append, List.mem_cons] at hm
      rcases hm with hm | hm | hm
      · simp only [Prod.mk.injEq, Ev.done.injEq] at hm
        obtain ⟨⟨hs, ha⟩, hfs⟩ := hm
        refine ⟨?_, Or.inl ⟨hs, ha⟩⟩
        rw [hfs, ha]
        exact hwav
      · exact absurd hm (by simp)
      · have h := transcribeStage_done wd e base wavPath txtPath0 txtDir
          _ s a fsD hm
        exact ⟨h.2.1, Or.inr ⟨h.1, h.2.2⟩⟩
    · simp at hm

theorem extractStage_chain (wd : String) (e : Env)
    (base mp4Path wavPath txtPath0 txtDir : String) (fs2 : FS) :
    List.Chain' fsStep
      (extractStage wd e base mp4Path wavPath txtPath0 txtDir fs2).trace := by
  simp only [extractStage]
  split
  · exact List.chain'_nil
  · split
    · rw [List.chain'_append]
      refine ⟨List.chain'_cons.mpr ⟨fun x hx => Or.inl hx,
        List.chain'_singleton _⟩, transcribeStage_chain wd e base wavPath
          txtPath0 txtDir _, ?_⟩
      intro y hy z hz
      simp at hy
      rw [← hy]
      intro x hx
      exact transcribeStage_head wd e base wavPath txtPath0 txtDir _ z hz
        x hx
    · exact List.chain'_nil

theorem extractStage_head (wd : String) (e : Env)
    (base mp4Path wavPath txtPath0 txtDir : String) (fs2 : FS) :
    ∀ hd ∈ (extractStage wd e base mp4Path wavPath txtPath0 txtDir
        fs2).trace.head?,
      ∀ x ∈ fs2, x ∈ hd.2 ∨ ∃ ok, hd.1 = Ev.cleanup x ok := by
  intro hd hhd x hx
  simp only [extractStage] at hhd
  split at hhd
  · simp at hhd
  · split at hhd
    · simp at hhd
      rw [← hhd]
      exact Or.inl (List.mem_append_left _ hx)
    · simp at hhd

theorem extractStage_cleanup (wd : String) (e : Env)
    (base mp4Path wavPath txtPath0 txtDir : String) (fs2 : FS) :
    ∀ p ok fsC, (Ev.cleanup p ok, fsC) ∈
      (extractStage wd e base mp4Path wavPath txtPath0 txtDir fs2).trace →
      p = wavPath := by
  intro p ok fsC hm
  simp only [extractStage] at hm
  split at hm
  · simp at hm
  · split at hm
    · simp only [List.cons_append, List.nil_append, List.mem_cons] at hm
      rcases hm with hm | hm | hm
      · exact absurd hm (by simp)
      · exact absurd hm (by simp)
      · exact transcribeStage_cleanup wd e base wavPath txtPath0 txtDir
          _ p ok fsC hm
    · simp at hm

theorem afterFetch_start (wd : String) (e : Env) (d : String) (fs1 : FS)
    (hd1 : isFile fs1 d = true) :
    ∀ s inp fsS, (Ev.start s inp, fsS) ∈ (afterFetch wd e d fs1).trace →
      isFile fsS inp = true := by
  intro s inp fsS hm
  simp only [afterFetch] at hm
  rcases hn : normalize_stage e.exec d
      (pathJoin (pathJoin wd "mp4") (stem (basename d) ++ ".mp4")) fs1
    with ⟨fs2, cs, r⟩
  rw [hn] at hm
  cases r with
  | error m =>
    simp only [List.mem_singleton, Prod.mk.injEq, Ev.start.injEq] at hm
    obtain ⟨⟨_, hinp⟩, hfs⟩ := hm
    rw [hfs, hinp]
    exact hd1
  | ok u =>
    simp only [List.cons_append, List.nil_append, List.mem_cons] at hm
    rcases hm with hm | hm | hm | hm
    · simp only [Prod.mk.injEq, Ev.start.injEq] at hm
      obtain ⟨⟨_, hinp⟩, hfs⟩ := hm
      rw [hfs, hinp]
      exact hd1
    · exact absurd hm (by simp)
    · simp only [Prod.mk.injEq, Ev.start.injEq] at hm
      obtain ⟨⟨_, hinp⟩, hfs⟩ := hm
      have hok := normalize_stage_ok_isFile e.exec d
        (pathJoin (pathJoin wd "mp4") (stem (basename d) ++ ".mp4")) fs1
        (by rw [hn])
      rw [hn] at hok
      rw [hfs, hinp]
      exact hok
    · exact extractStage_start wd e _ _ _ _ _ _ s inp fsS hm

theorem afterFetch_done (wd : String) (e : Env) (d : String) (fs1 : FS)
    (hW : ∀ f ∈ e.listWorkdir, ('/' : Char) ∉ f.data) :
    ∀ s a fsD, (Ev.done s a, fsD) ∈ (afterFetch wd e d fs1).trace →
      isFile fsD a = true ∧ s ≠ Stage.fetch ∧
      (stem (basename d)).data <+: (basename a).data := by
  intro s a fsD hm
  simp only [afterFetch] at hm
  rcases hn : normalize_stage e.exec d
      (pathJoin (pathJoin wd "mp4") (stem (basename d) ++ ".mp4")) fs1
    with ⟨fs2, cs, r⟩
  rw [hn] at hm
  cases r with
  | error m => simp at hm
  | ok u =>
    simp only [List.cons_append, List.nil_append, List.mem_cons] at hm
    rcases hm with hm | hm | hm | hm
    · exact absurd hm (by simp)
    · simp only [Prod.mk.injEq, Ev.done.injEq] at hm
      obtain ⟨⟨hs, ha⟩, hfs⟩ := hm
      have hok := normalize_stage_ok_isFile e.exec d
        (pathJoin (pathJoin wd "mp4") (stem (basename d) ++ ".mp4")) fs1
        (by rw [hn])
      rw [hn] at hok
      refine ⟨by rw [hfs, ha]; exact hok, by rw [hs]; simp, ?_⟩
      rw [ha]
      exact base_prefix_of_artifact (pathJoin wd "mp4") (stem (basename d))
        ".mp4" (no_slash_stem_basename d) (by decide)
    · exact absurd hm (by simp)
    · have h := extractStage_done wd e _ _ _ _ _ _ s a fsD hm
      refine ⟨h.1, ?_, ?_⟩
      · rcases h.2 with ⟨hs, _⟩ | ⟨hs, _⟩ <;> rw [hs] <;> simp
      · rcases h.2 with ⟨_, ha⟩ | ⟨_, ha | ⟨c, hcmem, hcpre, ha⟩⟩
        · rw [ha]
          exact base_prefix_of_artifact (pathJoin wd "mp4")
            (stem (basename d)) ".wav" (no_slash_stem_basename d) (by decide)
        · rw [ha]
          exact base_prefix_of_artifact (pathJoin wd "txt")
            (stem (basename d)) ".txt" (no_slash_stem_basename d) (by decide)
        · rw [ha]
          show (stem (basename d)).data <+:
            (basename (wd ++ "/" ++ c)).data
          rw [basename_append wd c (hW c hcmem)]
          exact List.isPrefixOf_iff_prefix.mp hcpre

theorem afterFetch_chain (wd : String) (e : Env) (d : String) (fs1 : FS) :
    List.Chain' fsStep (afterFetch wd e d fs1).trace := by
  simp only [afterFetch]
  rcases hn : normalize_stage e.exec d
      (pathJoin (pathJoin wd "mp4") (stem (basename d) ++ ".mp4")) fs1
    with ⟨fs2, cs, r⟩
  cases r with
  | error m => exact List.chain'_singleton _
  | ok u =>
    rw [List.chain'_append]
    have hmono : ∀ x ∈ fs1, x ∈ fs2 := by
      intro x hx
      have := normalize_stage_fs_mono e.exec d
        (pathJoin (pathJoin wd "mp4") (stem (basename d) ++ ".mp4")) fs1 x hx
      rw [hn] at this
      exact this
    refine ⟨?_, extractStage_chain wd e _ _ _ _ _ _, ?_⟩
    · exact List.chain'_cons.mpr ⟨fun x hx => Or.inl (hmono x hx),
        List.chain'_cons.mpr ⟨fun x hx => Or.inl hx,
          List.chain'_singleton _⟩⟩
    · intro y hy z hz
      simp at hy
      rw [← hy]
      intro x hx
      exact extractStage_head wd e _ _ _ _ _ _ z hz x hx

theorem afterFetch_head (wd : String) (e : Env) (d : String) (fs1 : FS) :
    ∀ hd ∈ (afterFetch wd e d fs1).trace.head?,
      ∀ x ∈ fs1, x ∈ hd.2 ∨ ∃ ok, hd.1 = Ev.cleanup x ok := by
  intro hd hhd x hx
  simp only [afterFetch] at hhd
  rcases hn : normalize_stage e.exec d
      (pathJoin (pathJoin wd "mp4") (stem (basename d) ++ ".mp4")) fs1
    with ⟨fs2, cs, r⟩
  rw [hn] at hhd
  cases r with
  | error m =>
    simp at hhd
    rw [← hhd]
    exact Or.inl hx
  | ok u =>
    simp at hhd
    rw [← hhd]
    exact Or.inl hx

theorem afterFetch_cleanup (wd : String) (e : Env) (d : String) (fs1 : FS) :
    ∀ p ok fsC, (Ev.cleanup p ok, fsC) ∈ (afterFetch wd e d fs1).trace →
      p = pathJoin (pathJoin wd "mp4") (stem (basename d) ++ ".wav") := by
  intro p ok fsC hm
  simp only [afterFetch] at hm
  rcases hn : normalize_stage e.exec d
      (pathJoin (pathJoin wd "mp4") (stem (basename d) ++ ".mp4")) fs1
    with ⟨fs2, cs, r⟩
  rw [hn] at hm
  cases r with
  | error m => simp at hm
  | ok u =>
    simp only [List.cons_append, List.nil_append, List.mem_cons] at hm
    rcases hm with hm | hm | hm | hm
    · exact absurd hm (by simp)
    · exact absurd hm (by simp)
    · exact absurd hm (by simp)
    · exact extractStage_cleanup wd e _ _ _ _ _ _ p ok fsC hm

/-- C2, amended.  The run maintains the artifact invariant except
across the deliberate cleanup of the transient WAV: (a) no stage other
than Fetch starts before its input artifact exists; (b) whenever a
stage's completion milestone is recorded, the artifact it verified
exists at that moment; (c) along the trace the filesystem only grows,
except that a cleanup step may remove exactly the path it names; (d)
the only path ever removed by a cleanup step is the run's transient
`<base>.wav`; (e) every completed artifact's file name begins with the
run's shared base name (the fetched file's stem).  Hypothesis: the
work-directory listing contains plain names, no path separators, as
`os.listdir` guarantees. -/
theorem pipeline_artifact_invariant (wd : String) (e : Env) (fs0 : FS)
    (hW : ∀ f ∈ e.listWorkdir, ('/' : Char) ∉ f.data) :
    (∀ s inp fsS, (Ev.start s inp, fsS) ∈ (pipeline wd e fs0).trace →
      s ≠ Stage.fetch → isFile fsS inp = true) ∧
    (∀ s a fsD, (Ev.done s a, fsD) ∈ (pipeline wd e fs0).trace →
      isFile fsD a = true) ∧
    List.Chain' fsStep (pipeline wd e fs0).trace ∧
    (∀ p ok fsC, (Ev.cleanup p ok, fsC) ∈ (pipeline wd e fs0).trace →
      ∃ d fsD, (Ev.done Stage.fetch d, fsD) ∈ (pipeline wd e fs0).trace ∧
        p = pathJoin (pathJoin wd "mp4") (stem (basename d) ++ ".wav")) ∧
    (∀ d fsD s a fsA,
      (Ev.done Stage.fetch d, fsD) ∈ (pipeline wd e fs0).trace →
      (Ev.done s a, fsA) ∈ (pipeline wd e fs0).trace →
      (stem (basename d)).data <+: (basename a).data) := by
  simp only [pipeline]
  split
  · refine ⟨?_, ?_, List.chain'_singleton _, ?_, ?_⟩
    · intro s inp fsS hm _; simp at hm
    · intro s a fsD hm; simp at hm
    · intro p ok fsC hm; simp at hm
    · intro d fsD s a fsA hm _; simp at hm
  · rcases hdl : download_youtube e.exec e.url (pathJoin wd "video")
        ("%(title).80s_%(id)s_" ++ e.dateTag) e.listVideoDir
        (fs0 ++ (e.exec (ensureWhisperCmd e.pythonExe)).created)
      with ⟨fs1, res⟩
    cases res with
    | error m =>
      refine ⟨?_, ?_, ?_, ?_, ?_⟩
      · intro s inp fsS hm hs
        simp only [List.mem_cons, List.not_mem_nil, or_false] at hm
        rcases hm with hm | hm
        · exact absurd hm (by simp)
        · simp only [Prod.mk.injEq, Ev.start.injEq] at hm
          exact absurd hm.1.1 hs
      · intro s a fsD hm; simp at hm
      · exact List.chain'_cons.mpr
          ⟨fun x hx => Or.inl (List.mem_append_left _ hx),
           List.chain'_singleton _⟩
      · intro p ok fsC hm; simp at hm
      · intro d fsD s a fsA hm _; simp at hm
    | ok d =>
      have hfs1 : fs1 =
          (fs0 ++ (e.exec (ensureWhisperCmd e.pythonExe)).created) ++
            (e.exec (ytdlpCmd e.url (pathJoin wd "video")
              ("%(title).80s_%(id)s_" ++ e.dateTag))).created := by
        have h := download_fs e.exec e.url (pathJoin wd "video")
          ("%(title).80s_%(id)s_" ++ e.dateTag) e.listVideoDir
          (fs0 ++ (e.exec (ensureWhisperCmd e.pythonExe)).created)
        rw [hdl] at h
        exact h
      have hd1 : isFile fs1 d = true := by
        have h := download_ok_isFile e.exec e.url (pathJoin wd "video")
          ("%(title).80s_%(id)s_" ++ e.dateTag) e.listVideoDir
          (fs0 ++ (e.exec (ensureWhisperCmd e.pythonExe)).created) d
          (by rw [hdl])
        rw [← hfs1] at h
        exact h
      refine ⟨?_, ?_, ?_, ?_, ?_⟩
      · intro s inp fsS hm hs
        simp only [List.cons_append, List.nil_append, List.mem_cons] at hm
        rcases hm with hm | hm | hm | hm
        · exact absurd hm (by simp)
        · simp only [Prod.mk.injEq, Ev.start.injEq] at hm
          exact absurd hm.1.1 hs
        · exact absurd hm (by simp)
        · exact afterFetch_start wd e d fs1 hd1 s inp fsS hm
      · intro s a fsD hm
        simp only [List.cons_append, List.nil_append, List.mem_cons] at hm
        rcases hm with hm | hm | hm | hm
        · exact absurd hm (by simp)
        · exact absurd hm (by simp)
        · simp only [Prod.mk.injEq, Ev.done.injEq] at hm
          obtain ⟨⟨_, ha⟩, hfs⟩ := hm
          rw [hfs, ha]
          exact hd1
        · exact (afterFetch_done wd e d fs1 hW s a fsD hm).1
      · show List.Chain' fsStep ([(Ev.engineCheck, fs0),
          (Ev.start Stage.fetch e.url, _), (Ev.done Stage.fetch d, fs1)] ++
          (afterFetch wd e d fs1).trace)
        rw [List.chain'_append]
        refine ⟨?_, afterFetch_chain wd e d fs1, ?_⟩
        · refine List.chain'_cons.mpr ⟨fun x hx =>
            Or.inl (List.mem_append_left _ hx), List.chain'_cons.mpr
              ⟨fun x hx => Or.inl ?_, List.chain'_singleton _⟩⟩
          rw [hfs1]
          exact List.mem_append_left _ hx
        · intro y hy z hz
          simp at hy
          rw [← hy]
          intro x hx
          exact afterFetch_head wd e d fs1 z hz x hx
      · intro p ok fsC hm
        simp only [List.cons_append, List.nil_append, List.mem_cons] at hm
        rcases hm with hm | hm | hm | hm
        · exact absurd hm (by simp)
        · exact absurd hm (by simp)
        · exact absurd hm (by simp)
        · exact ⟨d, fs1, by simp, afterFetch_cleanup wd e d fs1 p ok fsC hm⟩
      · intro d' fsD' s a fsA hmf hma
        simp only [List.cons_append, List.nil_append, List.mem_cons] at hmf
        simp only [List.cons_append, List.nil_append, List.mem_cons] at hma
        have hd' : d' = d := by
          rcases hmf with hmf | hmf | hmf | hmf
          · exact absurd hmf (by simp)
          · exact absurd hmf (by simp)
          · simp only [Prod.mk.injEq, Ev.done.injEq] at hmf
            exact hmf.1.2
          · exact absurd rfl (afterFetch_done wd e d fs1 hW Stage.fetch d'
              fsD' hmf).2.1
        subst hd'
        rcases hma with hma | hma | hma | hma
        · exact absurd hma (by simp)
        · exact absurd hma (by simp)
        · simp only [Prod.mk.injEq, Ev.done.injEq] at hma
          rw [hma.1.2]
          exact stemLeading (basename d')
        · exact (afterFetch_done wd e d' fs1 hW s a fsA hma).2.2

/-- Witness for the amended C2 theorem: the hypothesis holds for the
stubbed environment and the trace chain property follows. -/
theorem pipeline_artifact_invariant_witness :
    (∀ f ∈ okEnv.listWorkdir, ('/' : Char) ∉ f.data) ∧
    List.Chain' fsStep (pipeline "w" okEnv []).trace :=
  ⟨by decide, (pipeline_artifact_invariant "w" okEnv [] (by decide)).2.2.1⟩

/-! ## C6: timing and effect of the WAV cleanup -/

theorem wavMissing_ne_txtMissing : wavMissingMsg ≠ txtMissingMsg := by decide

theorem mp4Missing_ne_txtMissing : mp4MissingMsg ≠ txtMissingMsg := by decide

theorem dlFail_ne_txtMissing : dlFailMsg ≠ txtMissingMsg := by decide

theorem isFile_filter_self (fs : FS) (a : String) :
    isFile (fs.filter (fun p => p ≠ a)) a = false := by
  simp [isFile, List.mem_filter]

theorem finishStage_cleanup_present (wd : String) (e : Env)
    (base wavPath txtPath0 : String) (fs4 : FS) :
    ∃ p rm fsC, (Ev.cleanup p rm, fsC) ∈
      (finishStage wd e base wavPath txtPath0 fs4).trace := by
  simp only [finishStage]
  split_ifs <;> exact ⟨_, _, _, List.mem_cons_self _ _⟩

theorem finishStage_outcome (wd : String) (e : Env)
    (base wavPath txtPath0 : String) (fs4 : FS) :
    (∃ t, (finishStage wd e base wavPath txtPath0 fs4).outcome =
      Outcome.success t) ∨
    (finishStage wd e base wavPath txtPath0 fs4).outcome =
      Outcome.failure txtMissingMsg := by
  simp only [finishStage]
  split_ifs <;> first
    | exact Or.inl ⟨_, rfl⟩
    | exact Or.inr rfl

theorem finishStage_removed_gone (wd : String) (e : Env)
    (base wavPath txtPath0 : String) (fs4 : FS) :
    ∀ p fsC, (Ev.cleanup p true, fsC) ∈
      (finishStage wd e base wavPath txtPath0 fs4).trace →
      isFile (finishStage wd e base wavPath txtPath0 fs4).fs p = false := by
  intro p fsC hm
  simp only [finishStage] at hm ⊢
  split_ifs at hm ⊢ with h1 h2 h3 <;> simp at hm
  · rw [hm.1.1]
    exact isFile_filter_self fs4 wavPath
  · rw [hm.1.1]
    exact isFile_filter_self fs4 wavPath
  · exact absurd ((Bool.and_eq_true e.rmWavOk (isFile fs4 wavPath)).mpr
      ⟨hm.1.2.1, hm.1.2.2⟩) h1
  · exact absurd ((Bool.and_eq_true e.rmWavOk (isFile fs4 wavPath)).mpr
      ⟨hm.1.2.1, hm.1.2.2⟩) h1

theorem normalize_stage_error_msg (exec : Exec) (i o : String) (fs : FS)
    (m : String)
    (h : (normalize_stage exec i o fs).2.2 = Except.error m) :
    m = cmdFailMsg (exec (ffReencCmd i o)).rc ∨ m = mp4MissingMsg := by
  revert h
  by_cases h1 : (exec (ffCopyCmd i o)).rc = 0
  · simp only [normalize_stage, to_mp4_primary_ok exec i o fs h1]
    split
    · intro h; exact absurd h (by simp)
    · intro h
      simp at h
      exact Or.inr h.symm
  · by_cases h2 : (exec (ffReencCmd i o)).rc = 0
    · simp only [normalize_stage, to_mp4_fallback_ok exec i o fs h1 h2]
      split
      · intro h; exact absurd h (by simp)
      · intro h
        simp at h
        exact Or.inr h.symm
    · simp only [normalize_stage, to_mp4_both_fail exec i o fs h1 h2]
      intro h
      simp at h
      exact Or.inl h.symm

theorem download_error_msg (exec : Exec) (url videoDir baseWithDate : String)
    (listing : List String) (fs : FS) (m : String)
    (h : (download_youtube exec url videoDir baseWithDate listing fs).2 =
      Except.error m) :
    m = cmdFailMsg (exec (ytdlpCmd url videoDir baseWithDate)).rc ∨
      m = dlFailMsg := by
  revert h
  by_cases hrc : (exec (ytdlpCmd url videoDir baseWithDate)).rc = 0
  · simp only [download_youtube, run_cmd_stream, hrc]
    intro h
    simp at h
    split at h
    · exact absurd h (by simp)
    · split at h
      · exact absurd h (by simp)
      · simp at h
        exact Or.inr h.symm
  · simp only [download_youtube, run_cmd_stream, hrc]
    intro h
    simp [hrc] at h
    exact Or.inl h.symm

theorem transcribeStage_txtMissing_cleanup (wd : String) (e : Env)
    (base wavPath txtPath0 txtDir : String) (fs3 : FS)
    (h : (transcribeStage wd e base wavPath txtPath0 txtDir fs3).outcome =
      Outcome.failure txtMissingMsg) :
    ∃ p rm fsC, (Ev.cleanup p rm, fsC) ∈
      (transcribeStage wd e base wavPath txtPath0 txtDir fs3).trace := by
  revert h
  simp only [transcribeStage]
  split
  · rename_i m hrun
    intro h
    simp at h
    rcases hrun2 : (e.exec (explain_whisper_command e.pythonExe wavPath
        txtDir e.modelName e.lang)).rc with _ | _
    all_goals
      simp only [run_cmd_stream] at hrun
      split at hrun
      · simp at hrun
        exact absurd (hrun ▸ h.symm).symm (cmdFailMsg_ne_txtMissing _)
      · exact absurd hrun (by simp)
  · intro _
    exact finishStage_cleanup_present wd e base wavPath txtPath0 _

theorem transcribeStage_cleanup_outcome (wd : String) (e : Env)
    (base wavPath txtPath0 txtDir : String) (fs3 : FS) :
    ∀ p rm fsC, (Ev.cleanup p rm, fsC) ∈
      (transcribeStage wd e base wavPath txtPath0 txtDir fs3).trace →
      (∃ t, (transcribeStage wd e base wavPath txtPath0 txtDir fs3).outcome =
        Outcome.success t) ∨
      (transcribeStage wd e base wavPath txtPath0 txtDir fs3).outcome =
        Outcome.failure txtMissingMsg := by
  intro p rm fsC hm
  simp only [transcribeStage] at hm ⊢
  split at hm
  · simp at hm
  · exact finishStage_outcome wd e base wavPath txtPath0 _

theorem transcribeStage_removed_gone (wd : String) (e : Env)
    (base wavPath txtPath0 txtDir : String) (fs3 : FS) :
    ∀ p fsC, (Ev.cleanup p true, fsC) ∈
      (transcribeStage wd e base wavPath txtPath0 txtDir fs3).trace →
      isFile (transcribeStage wd e base wavPath txtPath0 txtDir fs3).fs p =
        false := by
  intro p fsC hm
  simp only [transcribeStage] at hm ⊢
  split at hm
  · simp at hm
  · exact finishStage_removed_gone wd e base wavPath txtPath0 _ p fsC hm

theorem extractStage_txtMissing_cleanup (wd : String) (e : Env)
    (base mp4Path wavPath txtPath0 txtDir : String) (fs2 : FS)
    (h : (extractStage wd e base mp4Path wavPath txtPath0 txtDir
      fs2).outcome = Outcome.failure txtMissingMsg) :
    ∃ p rm fsC, (Ev.cleanup p rm, fsC) ∈
      (extractStage wd e base mp4Path wavPath txtPath0 txtDir fs2).trace := by
  revert h
  simp only [extractStage]
  split
  · rename_i m hrun
    intro h
    simp at h
    simp only [run_cmd_stream] at hrun
    split at hrun
    · simp at hrun
      exact absurd (hrun.trans h) (cmdFailMsg_ne_txtMissing _)
    · exact absurd hrun (by simp)
  · split
    · intro h
      obtain ⟨p, rm, fsC, hmem⟩ := transcribeStage_txtMissing_cleanup wd e
        base wavPath txtPath0 txtDir _ h
      exact ⟨p, rm, fsC, List.mem_append_right _ hmem⟩
    · intro h
      simp at h
      exact absurd h wavMissing_ne_txtMissing

theorem extractStage_cleanup_outcome (wd : String) (e : Env)
    (base mp4Path wavPath txtPath0 txtDir : String) (fs2 : FS) :
    ∀ p rm fsC, (Ev.cleanup p rm, fsC) ∈
      (extractStage wd e base mp4Path wavPath txtPath0 txtDir fs2).trace →
      (∃ t, (extractStage wd e base mp4Path wavPath txtPath0 txtDir
        fs2).outcome = Outcome.success t) ∨
      (extractStage wd e base mp4Path wavPath txtPath0 txtDir fs2).outcome =
        Outcome.failure txtMissingMsg := by
  intro p rm fsC hm
  simp only [extractStage] at hm ⊢
  split at hm
  · simp at hm
  · split at hm
    · rename_i hwav
      simp only [List.cons_append, List.nil_append, List.mem_cons] at hm
      rcases hm with hm | hm | hm
      · exact absurd hm (by simp)
      · exact absurd hm (by simp)
      · rw [if_pos hwav]
        exact transcribeStage_cleanup_outcome wd e base wavPath txtPath0
          txtDir _ p rm fsC hm
    · simp at hm

theorem extractStage_removed_gone (wd : String) (e : Env)
    (base mp4Path wavPath txtPath0 txtDir : String) (fs2 : FS) :
    ∀ p fsC, (Ev.cleanup p true, fsC) ∈
      (extractStage wd e base mp4Path wavPath txtPath0 txtDir fs2).trace →
      isFile (extractStage wd e base mp4Path wavPath txtPath0 txtDir
        fs2).fs p = false := by
  intro p fsC hm
  simp only [extractStage] at hm ⊢
  split at hm
  · simp at hm
  · split at hm
    · rename_i hwav
      simp only [List.cons_append, List.nil_append, List.mem_cons] at hm
      rcases hm with hm | hm | hm
      · exact absurd hm (by simp)
      · exact absurd hm (by simp)
      · rw [if_pos hwav]
        exact transcribeStage_removed_gone wd e base wavPath txtPath0
          txtDir _ p fsC hm
    · simp at hm

theorem afterFetch_txtMissing_cleanup (wd : String) (e : Env) (d : String)
    (fs1 : FS)
    (h : (afterFetch wd e d fs1).outcome = Outcome.failure txtMissingMsg) :
    ∃ p rm fsC, (Ev.cleanup p rm, fsC) ∈ (afterFetch wd e d fs1).trace := by
  revert h
  simp only [afterFetch]
  rcases hn : normalize_stage e.exec d
      (pathJoin (pathJoin wd "mp4") (stem (basename d) ++ ".mp4")) fs1
    with ⟨fs2, cs, r⟩
  cases r with
  | error m =>
    intro h
    simp at h
    rcases normalize_stage_error_msg e.exec d
        (pathJoin (pathJoin wd "mp4") (stem (basename d) ++ ".mp4")) fs1 m
        (by rw [hn]) with hm | hm
    · exact absurd (hm.symm.trans h) (cmdFailMsg_ne_txtMissing _)
    · exact absurd (hm.symm.trans h) mp4Missing_ne_txtMissing
  | ok u =>
    intro h
    obtain ⟨p, rm, fsC, hmem⟩ := extractStage_txtMissing_cleanup wd e
      (stem (basename d)) _ _ _ _ _ h
    exact ⟨p, rm, fsC, List.mem_append_right _ hmem⟩

theorem afterFetch_cleanup_outcome (wd : String) (e : Env) (d : String)
    (fs1 : FS) :
    ∀ p rm fsC, (Ev.cleanup p rm, fsC) ∈ (afterFetch wd e d fs1).trace →
      (∃ t, (afterFetch wd e d fs1).outcome = Outcome.success t) ∨
      (afterFetch wd e d fs1).outcome = Outcome.failure txtMissingMsg := by
  intro p rm fsC hm
  simp only [afterFetch] at hm ⊢
  rcases hn : normalize_stage e.exec d
      (pathJoin (pathJoin wd "mp4") (stem (basename d) ++ ".mp4")) fs1
    with ⟨fs2, cs, r⟩
  rw [hn] at hm
  cases r with
  | error m => simp at hm
  | ok u =>
    simp only [List.cons_append, List.nil_append, List.mem_cons] at hm
    rcases hm with hm | hm | hm | hm
    · exact absurd hm (by simp)
    · exact absurd hm (by simp)
    · exact absurd hm (by simp)
    · exact extractStage_cleanup_outcome wd e (stem (basename d)) _ _ _ _ _
        p rm fsC hm

theorem afterFetch_removed_gone (wd : String) (e : Env) (d : String)
    (fs1 : FS) :
    ∀ p fsC, (Ev.cleanup p true, fsC) ∈ (afterFetch wd e d fs1).trace →
      isFile (afterFetch wd e d fs1).fs p = false := by
  intro p fsC hm
  simp only [afterFetch] at hm ⊢
  rcases hn : normalize_stage e.exec d
      (pathJoin (pathJoin wd "mp4") (stem (basename d) ++ ".mp4")) fs1
    with ⟨fs2, cs, r⟩
  rw [hn] at hm
  cases r with
  | error m => simp at hm
  | ok u =>
    simp only [List.cons_append, List.nil_append, List.mem_cons] at hm
    rcases hm with hm | hm | hm | hm
    · exact absurd hm (by simp)
    · exact absurd hm (by simp)
    · exact absurd hm (by simp)
    · exact extractStage_removed_gone wd e (stem (basename d)) _ _ _ _ _
        p fsC hm

/-- C6, amended.  The transient WAV is removed (best-effort) as soon as
the transcription invocation returns, before the final text-artifact
check — so also on runs that then fail with `OutputMissing`, not only
on Succeeded runs: (a) after a cleanup step the only possible terminal
outcomes are success or the `OutputMissing` failure, so a deletion
failure is never fatal (it is silently swallowed by the
`except: pass` of lines 429-430, not logged); (b) every run that ends
in the `OutputMissing` failure has nevertheless performed the cleanup
step; (c) whenever the cleanup step actually removed its target, that
file no longer exists in the final filesystem; and (d) in the stubbed
all-tools-succeed run the outcome is success, the three persistent
artifacts (video, MP4, text) exist afterwards, and the WAV does not. -/
theorem pipeline_wav_cleanup (wd : String) (e : Env) (fs0 : FS) :
    (∀ p rm fsC, (Ev.cleanup p rm, fsC) ∈ (pipeline wd e fs0).trace →
      (∃ t, (pipeline wd e fs0).outcome = Outcome.success t) ∨
      (pipeline wd e fs0).outcome = Outcome.failure txtMissingMsg) ∧
    ((pipeline wd e fs0).outcome = Outcome.failure txtMissingMsg →
      ∃ p rm fsC, (Ev.cleanup p rm, fsC) ∈ (pipeline wd e fs0).trace) ∧
    (∀ p fsC, (Ev.cleanup p true, fsC) ∈ (pipeline wd e fs0).trace →
      isFile (pipeline wd e fs0).fs p = false) ∧
    ((pipeline "w" okEnv []).outcome = Outcome.success txtFile ∧
     isFile (pipeline "w" okEnv []).fs txtFile = true ∧
     isFile (pipeline "w" okEnv []).fs vidFile = true ∧
     isFile (pipeline "w" okEnv []).fs mp4File = true ∧
     isFile (pipeline "w" okEnv []).fs wavFile = false) := by
  refine ⟨?_, ?_, ?_, rfl, rfl, rfl, rfl, rfl⟩ <;> simp only [pipeline]
  · split
    · intro p rm fsC hm
      simp at hm
    · rcases hdl : download_youtube e.exec e.url (pathJoin wd "video")
          ("%(title).80s_%(id)s_" ++ e.dateTag) e.listVideoDir
          (fs0 ++ (e.exec (ensureWhisperCmd e.pythonExe)).created)
        with ⟨fs1, res⟩
      cases res with
      | error m =>
        intro p rm fsC hm
        simp at hm
      | ok d =>
        intro p rm fsC hm
        simp only [List.cons_append, List.nil_append, List.mem_cons] at hm
        rcases hm with hm | hm | hm | hm
        · exact absurd hm (by simp)
        · exact absurd hm (by simp)
        · exact absurd hm (by simp)
        · exact afterFetch_cleanup_outcome wd e d fs1 p rm fsC hm
  · split
    · rename_i m hrun
      intro h
      simp at h
      simp only [run_cmd_stream] at hrun
      split at hrun
      · simp at hrun
        exact absurd (hrun.trans h) (cmdFailMsg_ne_txtMissing _)
      · exact absurd hrun (by simp)
    · rcases hdl : download_youtube e.exec e.url (pathJoin wd "video")
          ("%(title).80s_%(id)s_" ++ e.dateTag) e.listVideoDir
          (fs0 ++ (e.exec (ensureWhisperCmd e.pythonExe)).created)
        with ⟨fs1, res⟩
      cases res with
      | error m =>
        intro h
        simp at h
        rcases download_error_msg e.exec e.url (pathJoin wd "video")
            ("%(title).80s_%(id)s_" ++ e.dateTag) e.listVideoDir
            (fs0 ++ (e.exec (ensureWhisperCmd e.pythonExe)).created) m
            (by rw [hdl]) with hm | hm
        · exact absurd (hm.symm.trans h) (cmdFailMsg_ne_txtMissing _)
        · exact absurd (hm.symm.trans h) dlFail_ne_txtMissing
      | ok d =>
        intro h
        obtain ⟨p, rm, fsC, hmem⟩ := afterFetch_txtMissing_cleanup wd e d
          fs1 h
        exact ⟨p, rm, fsC, List.mem_append_right _ hmem⟩
  · split
    · intro p fsC hm
      simp at hm
    · rcases hdl : download_youtube e.exec e.url (pathJoin wd "video")
          ("%(title).80s_%(id)s_" ++ e.dateTag) e.listVideoDir
          (fs0 ++ (e.exec (ensureWhisperCmd e.pythonExe)).created)
        with ⟨fs1, res⟩
      cases res with
      | error m =>
        intro p fsC hm
        simp at hm
      | ok d =>
        intro p fsC hm
        simp only [List.cons_append, List.nil_append, List.mem_cons] at hm
        rcases hm with hm | hm | hm | hm
        · exact absurd hm (by simp)
        · exact absurd hm (by simp)
        · exact absurd hm (by simp)
        · exact afterFetch_removed_gone wd e d fs1 p fsC hm

/-- Witness for the amended C6 theorem: in the run whose transcription
produced no file, the outcome is the `OutputMissing` failure and the
cleanup step is nevertheless on the trace. -/
theorem pipeline_wav_cleanup_witness :
    (pipeline "w" noTxtEnv []).outcome = Outcome.failure txtMissingMsg ∧
    ∃ p rm fsC, (Ev.cleanup p rm, fsC) ∈ (pipeline "w" noTxtEnv []).trace :=
  ⟨rfl, (pipeline_wav_cleanup "w" noTxtEnv []).2.1 rfl⟩

end YWT
